import Mathlib

/-
Verification of the slack-mcp message pipeline against its specification.

The TypeScript sources are shallowly embedded: strings are `List Char`,
the JavaScript regular-expression rewrites used by the code are embedded as
explicit left-to-right scanning functions with the exact backtracking
semantics of the source patterns, and the LangGraph workflow is embedded as
a step function over the workflow state record.  Scanning functions that
resume after a multi-character match take a fuel argument (instantiated
with the input length) so that every definition is structurally recursive
and evaluates by kernel reduction.
-/

set_option maxRecDepth 20000

namespace SlackMCP

/-! ### Character classes and generic list helpers -/

/-- JavaScript whitespace class as used by the source regexes
(space, tab, newline, carriage return, vertical tab, form feed;
the rarely used Unicode space code points are not exercised by the repo). -/
def jsWs (c : Char) : Bool :=
  c == ' ' || c == '\t' || c == '\n' || c == '\r' || c == '\x0b' || c == '\x0c'

/-- Space or tab, the class `[ \t]` of `cleanResponse`. -/
def isST (c : Char) : Bool := c == ' ' || c == '\t'

/-- The class `[A-Z0-9]` of the Slack mention regexes. -/
def isUpperAlnum (c : Char) : Bool :=
  ('A' ≤ c && c ≤ 'Z') || ('0' ≤ c && c ≤ '9')

/-- The class `\d`. -/
def isDigitCh (c : Char) : Bool := '0' ≤ c && c ≤ '9'

/-- The class `\w` (`[A-Za-z0-9_]`). -/
def isWordCh (c : Char) : Bool :=
  ('A' ≤ c && c ≤ 'Z') || ('a' ≤ c && c ≤ 'z') || ('0' ≤ c && c ≤ '9') || c == '_'

/-- A double-quote or single-quote character, the class `["']`. -/
def isQuote (c : Char) : Bool := c == '"' || c == '\''

/-- Does `p` occur as a prefix of `l`? -/
def hasPrefixL : List Char → List Char → Bool
  | [], _ => true
  | _ :: _, [] => false
  | p :: ps, c :: cs => p == c && hasPrefixL ps cs

/-- Does `p` occur as a contiguous substring of `l` (JS `String.includes`)? -/
def containsSubL (p : List Char) : List Char → Bool
  | [] => hasPrefixL p []
  | c :: cs => hasPrefixL p (c :: cs) || containsSubL p cs

/-- Does `l` end with `p`? -/
def hasSuffixL (p l : List Char) : Bool := hasPrefixL p.reverse l.reverse

/-- ASCII lower-casing, as `String.toLowerCase` acts on the repo's trigger
phrases. -/
def lowerCh (c : Char) : Char := if 'A' ≤ c && c ≤ 'Z' then Char.ofNat (c.toNat + 32) else c

/-- Lower-case every character. -/
def toLowerL (l : List Char) : List Char := l.map lowerCh

/-! ### The output normalizer of `nodes.ts` (`validateSlackFormattingNode`
and `basicSlackFormatConversion`) -/

/-- Deterministic match of the anchor regex
`<a\s+href=["']([^"']+)["'][^>]*>([^<]+)<\/a>` at the head of the list.
Returns the captured url, the captured link text, and the remainder of the
input after the match. -/
def anchorMatchAt : List Char → Option (List Char × List Char × List Char)
  | '<' :: 'a' :: r0 =>
    let ws := r0.takeWhile jsWs
    let r1 := r0.dropWhile jsWs
    if ws.isEmpty then none
    else if hasPrefixL ("href=".data) r1 then
      match r1.drop 5 with
      | q1 :: r2 =>
        if isQuote q1 then
          let url := r2.takeWhile (fun c => !(isQuote c))
          let r3 := r2.dropWhile (fun c => !(isQuote c))
          if url.isEmpty then none
          else
            match r3 with
            | q2 :: r4 =>
              if isQuote q2 then
                match r4.dropWhile (fun c => !(c == '>')) with
                | '>' :: r6 =>
                  let txt := r6.takeWhile (fun c => !(c == '<'))
                  let r7 := r6.dropWhile (fun c => !(c == '<'))
                  if txt.isEmpty then none
                  else if hasPrefixL ("</a>".data) r7 then some (url, txt, r7.drop 4)
                  else none
                | _ => none
              else none
            | [] => none
        else none
      | [] => none
    else none
  | _ => none

/-- Detection predicate `hasHtmlLinks` of `validateSlackFormattingNode`. -/
def hasHtmlLinks : List Char → Bool
  | [] => false
  | c :: cs => (anchorMatchAt (c :: cs)).isSome || hasHtmlLinks cs

/-- Does the list start (at a line start) with `#{1,6}` followed by a
whitespace character?  This is the multiline detection regex `^#{1,6}\s+`. -/
def headerStartAt (l : List Char) : Bool :=
  let hs := l.takeWhile (fun c => c == '#')
  let r := l.dropWhile (fun c => c == '#')
  decide (1 ≤ hs.length) && decide (hs.length ≤ 6) &&
    (match r with
     | c :: _ => jsWs c
     | [] => false)

/-- Scan for the header detection regex; the boolean tracks whether the
current position is a line start (`m` flag). -/
def hasMarkdownHeadersAux : Bool → List Char → Bool
  | _, [] => false
  | atStart, c :: cs =>
    (atStart && headerStartAt (c :: cs)) || hasMarkdownHeadersAux (c == '\n') cs

/-- Detection predicate `hasMarkdownHeaders` of `validateSlackFormattingNode`. -/
def hasMarkdownHeaders (l : List Char) : Bool := hasMarkdownHeadersAux true l

/-- Deterministic match of `\*\*([^*]+)\*\*` at the head of the list;
returns the captured middle and the remainder after the match. -/
def dstarMatchAt : List Char → Option (List Char × List Char)
  | '*' :: '*' :: r =>
    let mid := r.takeWhile (fun c => !(c == '*'))
    let r2 := r.dropWhile (fun c => !(c == '*'))
    if mid.isEmpty then none
    else
      match r2 with
      | '*' :: '*' :: rest => some (mid, rest)
      | _ => none
  | _ => none

/-- Detection predicate `hasDoubleAsterisks` of `validateSlackFormattingNode`. -/
def hasDoubleAsterisks : List Char → Bool
  | [] => false
  | c :: cs => (dstarMatchAt (c :: cs)).isSome || hasDoubleAsterisks cs

/-! URL canonicalization inside `basicSlackFormatConversion`, applied only
to urls containing `sefaria.org`: the four chained `replace` calls. -/

/-- Global replace of the literal `%2C` by `,`. -/
def replacePctCommaF : Nat → List Char → List Char
  | 0, l => l
  | _ + 1, [] => []
  | f + 1, '%' :: '2' :: 'C' :: rest => ',' :: replacePctCommaF f rest
  | f + 1, c :: cs => c :: replacePctCommaF f cs

/-- Global replace of `\s+` by `_`. -/
def replaceWsRunsF : Nat → List Char → List Char
  | 0, l => l
  | _ + 1, [] => []
  | f + 1, c :: cs =>
    if jsWs c then '_' :: replaceWsRunsF f (cs.dropWhile jsWs)
    else c :: replaceWsRunsF f cs

/-- Deterministic match of `(\w)\s+(\d+):(\d+)` at the head of the list. -/
def verseMatchAt : List Char → Option (Char × List Char × List Char × List Char)
  | c :: cs =>
    if isWordCh c then
      let ws := cs.takeWhile jsWs
      let r1 := cs.dropWhile jsWs
      if ws.isEmpty then none
      else
        let d1 := r1.takeWhile isDigitCh
        let r2 := r1.dropWhile isDigitCh
        if d1.isEmpty then none
        else
          match r2 with
          | ':' :: r3 =>
            let d2 := r3.takeWhile isDigitCh
            let r4 := r3.dropWhile isDigitCh
            if d2.isEmpty then none else some (c, d1, d2, r4)
          | _ => none
    else none
  | [] => none

/-- Global replace of `(\w)\s+(\d+):(\d+)` by `$1.$2.$3`. -/
def replaceVerseF : Nat → List Char → List Char
  | 0, l => l
  | _ + 1, [] => []
  | f + 1, c :: cs =>
    match verseMatchAt (c :: cs) with
    | some (w, d1, d2, rest) =>
      w :: '.' :: (d1 ++ '.' :: (d2 ++ replaceVerseF f rest))
    | none => c :: replaceVerseF f cs

/-- Global replace of `:(\d+)` by `.$1`. -/
def replaceColonDigitsF : Nat → List Char → List Char
  | 0, l => l
  | _ + 1, [] => []
  | f + 1, ':' :: cs =>
    let ds := cs.takeWhile isDigitCh
    let r := cs.dropWhile isDigitCh
    if ds.isEmpty then ':' :: replaceColonDigitsF f cs
    else '.' :: (ds ++ replaceColonDigitsF f r)
  | f + 1, c :: cs => c :: replaceColonDigitsF f cs

/-- The Sefaria url clean-up chain of `basicSlackFormatConversion`. -/
def cleanSefariaUrl (url : List Char) : List Char :=
  let u1 := replacePctCommaF url.length url
  let u2 := replaceWsRunsF u1.length u1
  let u3 := replaceVerseF u2.length u2
  replaceColonDigitsF u3.length u3

/-- Replacement text for one matched anchor tag. -/
def anchorRepl (url txt : List Char) : List Char :=
  if containsSubL ("sefaria.org".data) url then
    '<' :: (cleanSefariaUrl url ++ '|' :: (txt ++ ['>']))
  else
    '<' :: (url ++ '|' :: (txt ++ ['>']))

/-- Global replace of the anchor regex (first pass of
`basicSlackFormatConversion`). -/
def replaceAnchorsF : Nat → List Char → List Char
  | 0, l => l
  | _ + 1, [] => []
  | f + 1, c :: cs =>
    match anchorMatchAt (c :: cs) with
    | some (url, txt, rest) => anchorRepl url txt ++ replaceAnchorsF f rest
    | none => c :: replaceAnchorsF f cs

/-- Deterministic match of the header conversion regex
`^#{1,6}\s+(.+)$` (flags `gm`) at a line start.  Returns the captured group
and the remainder of the input after the match.  When the whitespace run
after the hashes reaches the end of the input, the regex engine backtracks
`\s+` so that `(.+)` captures the last non-newline whitespace character of
the run (if it sits at index at least 1 of the run). -/
def headerLineMatch (l : List Char) : Option (List Char × List Char) :=
  let hs := l.takeWhile (fun c => c == '#')
  let r := l.dropWhile (fun c => c == '#')
  if decide (1 ≤ hs.length) && decide (hs.length ≤ 6) then
    let w := r.takeWhile jsWs
    let t := r.dropWhile jsWs
    if w.isEmpty then none
    else
      match t with
      | _ :: _ =>
        some (t.takeWhile (fun c => !(c == '\n')), t.dropWhile (fun c => !(c == '\n')))
      | [] =>
        let v := w.drop 1
        let tailNl := v.reverse.takeWhile (fun c => c == '\n')
        match v.reverse.dropWhile (fun c => c == '\n') with
        | x :: _ => some ([x], tailNl.reverse)
        | [] => none
  else none

/-- Global replace of `^#{1,6}\s+(.+)$` by `*$1*` (second pass of
`basicSlackFormatConversion`); the boolean tracks line starts. -/
def replaceHeadersF : Nat → Bool → List Char → List Char
  | 0, _, l => l
  | _ + 1, _, [] => []
  | f + 1, atStart, c :: cs =>
    if atStart then
      match headerLineMatch (c :: cs) with
      | some (cap, rest) => '*' :: (cap ++ '*' :: replaceHeadersF f false rest)
      | none => c :: replaceHeadersF f (c == '\n') cs
    else c :: replaceHeadersF f (c == '\n') cs

/-- Global replace of `\*\*([^*]+)\*\*` by `*$1*` (third pass of
`basicSlackFormatConversion`). -/
def replaceDoubleAstF : Nat → List Char → List Char
  | 0, l => l
  | _ + 1, [] => []
  | f + 1, c :: cs =>
    match dstarMatchAt (c :: cs) with
    | some (mid, rest) => '*' :: (mid ++ '*' :: replaceDoubleAstF f rest)
    | none => c :: replaceDoubleAstF f cs

/-- `basicSlackFormatConversion` of `nodes.ts`: the deterministic fallback
conversion (anchor links, then markdown headers, then double asterisks). -/
def basicSlackFormatConversion (l : List Char) : List Char :=
  let a := replaceAnchorsF l.length l
  let h := replaceHeadersF a.length true a
  replaceDoubleAstF h.length h

/-- Does the response need formatting according to
`validateSlackFormattingNode`? -/
def needsFormatting (l : List Char) : Bool :=
  hasHtmlLinks l || hasMarkdownHeaders l || hasDoubleAsterisks l

/-- The output normalizer: defect detection followed by the deterministic
fallback conversion when a defect is detected (the pure core of
`validateSlackFormattingNode` with `basicSlackFormatConversion` as the
correction step). -/
def normalize (l : List Char) : List Char :=
  if needsFormatting l then basicSlackFormatConversion l else l

/-! ### The context builder (`buildConversationContext`, `cleanMessageText`) -/

/-- Remove a maximal trailing run of whitespace (the right half of
JS `String.trim`). -/
def dropTrailingWs : List Char → List Char
  | [] => []
  | c :: cs =>
    match dropTrailingWs cs with
    | [] => if jsWs c then [] else [c]
    | x :: xs => c :: x :: xs

/-- JS `String.trim`. -/
def trimL (l : List Char) : List Char := dropTrailingWs (l.dropWhile jsWs)

/-- Deterministic match of the mention regex `<@[UW][A-Z0-9]+>` at the head
of the list; returns the remainder after the match. -/
def userMentionMatchAt : List Char → Option (List Char)
  | a :: b :: c :: rest =>
    if a == '<' && b == '@' && (c == 'U' || c == 'W') then
      let run := rest.takeWhile isUpperAlnum
      match rest.dropWhile isUpperAlnum with
      | '>' :: r2 => if run.isEmpty then none else some r2
      | _ => none
    else none
  | _ => none

/-- Global replace of `<@[UW][A-Z0-9]+>` by the empty string. -/
def stripUserMentionsF : Nat → List Char → List Char
  | 0, l => l
  | _ + 1, [] => []
  | f + 1, c :: cs =>
    match userMentionMatchAt (c :: cs) with
    | some rest => stripUserMentionsF f rest
    | none => c :: stripUserMentionsF f cs

/-- Deterministic match of `<#[C][A-Z0-9]+\|([^>]+)>` at the head of the
list; returns the captured channel name and the remainder. -/
def channelMentionMatchAt : List Char → Option (List Char × List Char)
  | a :: b :: c :: rest =>
    if a == '<' && b == '#' && c == 'C' then
      let run := rest.takeWhile isUpperAlnum
      match rest.dropWhile isUpperAlnum with
      | '|' :: r2 =>
        if run.isEmpty then none
        else
          let nm := r2.takeWhile (fun x => !(x == '>'))
          match r2.dropWhile (fun x => !(x == '>')) with
          | '>' :: r3 => if nm.isEmpty then none else some (nm, r3)
          | _ => none
      | _ => none
    else none
  | _ => none

/-- Global replace of `<#[C][A-Z0-9]+\|([^>]+)>` by `#$1`. -/
def channelMentionsF : Nat → List Char → List Char
  | 0, l => l
  | _ + 1, [] => []
  | f + 1, c :: cs =>
    match channelMentionMatchAt (c :: cs) with
    | some (nm, rest) => '#' :: (nm ++ channelMentionsF f rest)
    | none => c :: channelMentionsF f cs

/-- Deterministic match of `<([^>]+)>` at the head of the list. -/
def angleMatchAt : List Char → Option (List Char × List Char)
  | a :: rest =>
    if a == '<' then
      let mid := rest.takeWhile (fun c => !(c == '>'))
      match rest.dropWhile (fun c => !(c == '>')) with
      | '>' :: r2 => if mid.isEmpty then none else some (mid, r2)
      | _ => none
    else none
  | [] => none

/-- Global replace of `<([^>]+)>` by `$1`. -/
def stripAnglesF : Nat → List Char → List Char
  | 0, l => l
  | _ + 1, [] => []
  | f + 1, c :: cs =>
    match angleMatchAt (c :: cs) with
    | some (mid, rest) => mid ++ stripAnglesF f rest
    | none => c :: stripAnglesF f cs

/-- `cleanMessageText` of `nodes.ts`: strip user mentions, rewrite channel
mentions, unwrap remaining angle-bracket markup, then trim. -/
def cleanMessageText (l : List Char) : List Char :=
  let a := stripUserMentionsF l.length l
  let b := channelMentionsF a.length a
  let c := stripAnglesF b.length b
  trimL c

/-- Message roles of `ConversationMessage`. -/
inductive Role where
  | user
  | assistant
deriving DecidableEq, Repr

/-- A raw thread message as consumed by `buildConversationContext`
(only the fields the builder reads). -/
structure RawMsg where
  text : Option (List Char)
  bot_id : Option (List Char)
deriving DecidableEq, Repr

/-- JS truthiness of an optional string field. -/
def truthyS : Option (List Char) → Bool
  | none => false
  | some s => !s.isEmpty

/-- The truncation marker appended by `buildConversationContext`. -/
def truncationMarker : List Char := "...".data

/-- `buildConversationContext` of `nodes.ts`: skip blank messages, classify
the role by `bot_id`, clean the text and truncate it to 2000 characters,
appending the marker when cut. -/
def buildConversationContext : List RawMsg → List (Role × List Char)
  | [] => []
  | m :: rest =>
    match m.text with
    | none => buildConversationContext rest
    | some t =>
      if (trimL t).isEmpty then buildConversationContext rest
      else
        let role := if truthyS m.bot_id then Role.assistant else Role.user
        let content := cleanMessageText t
        let truncated :=
          if 2000 < content.length then content.take 2000 ++ truncationMarker
          else content
        (role, truncated) :: buildConversationContext rest

/-! ### The finalize post-pass (`addCoverageWarningIfNeeded`,
`cleanResponse` inside `formatResponseNode`) -/

/-- The fixed warning banner prepended by `addCoverageWarningIfNeeded`. -/
def coverageBanner : List Char :=
  "⚠️ *Limited Coverage*: This topic may not be fully covered in Sefaria's collection.\n\n".data

/-- Does the lower-cased text contain one of the trigger phrases? -/
def hasCoverageTrigger (l : List Char) : Bool :=
  containsSubL ("limited coverage".data) (toLowerL l) ||
  containsSubL ("few sources".data) (toLowerL l) ||
  containsSubL ("not well covered".data) (toLowerL l)

/-- `addCoverageWarningIfNeeded` of `nodes.ts`. -/
def addCoverageWarningIfNeeded (l : List Char) : List Char :=
  if hasCoverageTrigger l then coverageBanner ++ l else l

/-- Global replace of `[ \t]{2,}` by a single space. -/
def collapseSpacesF : Nat → List Char → List Char
  | 0, l => l
  | _ + 1, [] => []
  | f + 1, c :: cs =>
    if isST c then
      match cs with
      | c2 :: _ =>
        if isST c2 then ' ' :: collapseSpacesF f (cs.dropWhile isST)
        else c :: collapseSpacesF f cs
      | [] => [c]
    else c :: collapseSpacesF f cs

/-- Global replace of `\n{3,}` by two newlines. -/
def collapseNlF : Nat → List Char → List Char
  | 0, l => l
  | _ + 1, [] => []
  | f + 1, c :: cs =>
    if c == '\n' then
      match cs with
      | c2 :: c3 :: _ =>
        if c2 == '\n' && c3 == '\n' then
          '\n' :: '\n' :: collapseNlF f (cs.dropWhile (fun x => x == '\n'))
        else '\n' :: collapseNlF f cs
      | _ => '\n' :: collapseNlF f cs
    else c :: collapseNlF f cs

/-- `collapseSpacesF` with adequate fuel. -/
def collapseSpaces (l : List Char) : List Char := collapseSpacesF l.length l

/-- `collapseNlF` with adequate fuel. -/
def collapseNl (l : List Char) : List Char := collapseNlF l.length l

/-- `cleanResponse` of `nodes.ts`. -/
def cleanResponse (l : List Char) : List Char :=
  trimL (collapseNl (collapseSpaces l))

/-- The pure core of `formatResponseNode`: coverage banner, then whitespace
clean-up. -/
def finalizeResponse (l : List Char) : List Char :=
  cleanResponse (addCoverageWarningIfNeeded l)

/-! ### The deduplication cache (`processedMessages` in `app.ts`) -/

/-- `processedMessages.has(key)` on an insertion-ordered cache. -/
def seenMsg (cache : List (List Char)) (k : List Char) : Bool := cache.contains k

/-- `processedMessages.add(key)`: a JS `Set` keeps the original position of
an already present key. -/
def markSeenMsg (cache : List (List Char)) (k : List Char) : List (List Char) :=
  if cache.contains k then cache else cache ++ [k]

/-- The eviction step of `handleSlackEvent`: when the cache holds more than
1000 entries, the 500 oldest (insertion order) are removed. -/
def dedupEvict (cache : List (List Char)) : List (List Char) :=
  if 1000 < cache.length then cache.drop 500 else cache

/-- The deduplication path of `handleSlackEvent`: check, mark, evict, and
report whether the workflow is dispatched for this key. -/
def handleEventDedup (cache : List (List Char)) (k : List Char) :
    Bool × List (List Char) :=
  if seenMsg cache k then (false, cache)
  else (true, dedupEvict (markSeenMsg cache k))

/-! ### Event routing (`detectBotFromMessage` in `app.ts`) -/

/-- An inbound Slack event, restricted to the fields the router and the
validator read. -/
structure SlackEventR where
  etype : List Char
  text : Option (List Char)
  bot_id : Option (List Char)
  subtype : Option (List Char)
  user : Option (List Char)
  nestedText : Option (List Char)
deriving DecidableEq, Repr

/-- An inbound request body, restricted to the fields the router reads. -/
structure RequestBody where
  rtype : List Char
  event : Option SlackEventR
deriving DecidableEq, Repr

/-- `detectBotFromMessage` (bots.info variant): handshake requests,
non-message events and events without a `bot_id` default to `bina`; a
`bot_id` is resolved through `identifyBotFromBotId`, abstracted here as the
oracle `resolveBot` (`none` models a failed lookup), and any failure falls
back to `bina`. -/
def detectBotFromMessage (resolveBot : List Char → Option (List Char))
    (body : RequestBody) : List Char :=
  if body.rtype == "url_verification".data then "bina".data
  else
    match body.event with
    | none => "bina".data
    | some e =>
      if !(e.etype == "message".data) then "bina".data
      else if truthyS e.bot_id then
        match e.bot_id with
        | some bid =>
          match resolveBot bid with
          | some nm => if nm.isEmpty then "bina".data else nm
          | none => "bina".data
        | none => "bina".data
      else "bina".data

/-- Scan the message text for mention tokens `<@(U[A-Z0-9]+)>`,
collecting the captured user ids. -/
def mentionMatchAt : List Char → Option (List Char × List Char)
  | '<' :: '@' :: 'U' :: rest =>
    let run := rest.takeWhile isUpperAlnum
    match rest.dropWhile isUpperAlnum with
    | '>' :: r2 => if run.isEmpty then none else some ('U' :: run, r2)
    | _ => none
  | _ => none

/-- All mentioned user ids of a message text, in order. -/
def mentionedUserIdsF : Nat → List Char → List (List Char)
  | 0, _ => []
  | _ + 1, [] => []
  | f + 1, c :: cs =>
    match mentionMatchAt (c :: cs) with
    | some (uid, rest) => uid :: mentionedUserIdsF f rest
    | none => mentionedUserIdsF f cs

/-- All mentioned user ids with adequate fuel. -/
def mentionedUserIds (l : List Char) : List (List Char) :=
  mentionedUserIdsF l.length l

/-- The hardcoded fallback user-id table of `getBotUserIdCandidate`. -/
def fallbackMapping (botName : List Char) : Option (List Char) :=
  if botName == "binah".data then some ("U090X3GGN93".data)
  else if botName == "bina".data then some ("U09EBP618TW".data)
  else none

/-- Cache lookup for `botUserIdCache` (bot name to resolved user id). -/
def cacheLookup (cache : List (List Char × List Char)) (k : List Char) :
    Option (List Char) :=
  match cache.find? (fun p => p.1 == k) with
  | some p => some p.2
  | none => none

/-- `getBotUserIdCandidate`: the cached user id when present (JS-truthy),
otherwise the hardcoded fallback table, matched against the mentions. -/
def getBotUserIdCandidate (cache : List (List Char × List Char))
    (botName : List Char) (mentioned : List (List Char)) : Option (List Char) :=
  match cacheLookup cache botName with
  | some cid =>
    if cid.isEmpty then
      match fallbackMapping botName with
      | some fid => if mentioned.contains fid then some fid else none
      | none => none
    else if mentioned.contains cid then some cid else none
  | none =>
    match fallbackMapping botName with
    | some fid => if mentioned.contains fid then some fid else none
    | none => none

/-- The bot loop of the mention-based `detectBotFromMessage`. -/
def findMentionedBot (cache : List (List Char × List Char))
    (mentioned : List (List Char)) : List (List Char) → List Char
  | [] => "bina".data
  | b :: bs =>
    if (getBotUserIdCandidate cache b mentioned).isSome then b
    else findMentionedBot cache mentioned bs

/-- `event.text || ''`. -/
def eventTextOrEmpty (e : SlackEventR) : List Char :=
  match e.text with
  | some t => t
  | none => []

/-- `detectBotFromMessage` (mention-based variant): extract mentioned user
ids from the text and return the first registered bot whose resolved (or
fallback) user id is mentioned; every other case defaults to `bina`. -/
def detectBotFromMessageV2 (cache : List (List Char × List Char))
    (bots : List (List Char)) (body : RequestBody) : List Char :=
  if body.rtype == "url_verification".data then "bina".data
  else
    match body.event with
    | none => "bina".data
    | some e =>
      if !(e.etype == "message".data) then "bina".data
      else
        let mentioned := mentionedUserIds (eventTextOrEmpty e)
        if mentioned.isEmpty then "bina".data
        else findMentionedBot cache mentioned bots

/-! ### Message validation (`shouldProcessMessage`, `getMessageText`) -/

/-- `getMessageText` of `nodes.ts` (part_016 revision): the event's own
`text` field when defined, else the nested `message.text`, else null. -/
def getMessageText (e : SlackEventR) : Option (List Char) :=
  match e.text with
  | some t => some t
  | none =>
    match e.nestedText with
    | some t => some t
    | none => none

/-- `shouldProcessMessage` of `nodes.ts`: skip bot messages, non-plain
subtypes and the bot's own messages; otherwise require a literal mention of
the bot's resolved user id. -/
def shouldProcessMessage (botUserId : List Char) (e : SlackEventR) : Bool :=
  if truthyS e.bot_id then false
  else if truthyS e.subtype && !(e.subtype == some ("bot_message".data)) then false
  else if e.user == some botUserId then false
  else
    match getMessageText e with
    | none => false
    | some t =>
      if t.isEmpty then false
      else
        !botUserId.isEmpty &&
          containsSubL ('<' :: '@' :: (botUserId ++ ['>'])) t

/-! ### The workflow graph (`createBaseWorkflow` in `workflow-base.ts`) -/

/-- The nodes of the LangGraph workflow. -/
inductive WNode where
  | validate
  | acknowledge
  | fetchContext
  | callClaude
  | validateSlackFormatting
  | formatResponse
  | sendResponse
  | handleError
deriving DecidableEq, Repr

/-- The workflow state record (`SlackStateAnnotation`); payload strings are
schematic since only the control flow matters to the graph. -/
structure WState where
  shouldProcess : Bool
  acknowledgmentSent : Bool
  threadHistory : List (List Char)
  conversationContext : List (List Char)
  messageText : Option (List Char)
  claudeResponse : Option (List Char)
  needsSlackFormatting : Bool
  slackValidatedResponse : Option (List Char)
  formattedResponse : Option (List Char)
  error : Option (List Char)
  errorOccurred : Bool
deriving DecidableEq, Repr

/-- The initial state built by `processWithWorkflow`. -/
def initialWState : WState :=
  { shouldProcess := false
    acknowledgmentSent := false
    threadHistory := []
    conversationContext := []
    messageText := none
    claudeResponse := none
    needsSlackFormatting := false
    slackValidatedResponse := none
    formattedResponse := none
    error := none
    errorOccurred := false }

/-- One invocation's node outcomes: which node hits its internal-failure
branch, and what `validate` decides.  Each flag selects between the success
partial update and the catch-branch partial update of the corresponding
node in `nodes.ts`. -/
structure Scenario where
  validateThrows : Bool
  shouldProcess : Bool
  ackFails : Bool
  fetchFails : Bool
  claudeFails : Bool
  vsfFails : Bool
  formatFails : Bool
  sendFails : Bool
deriving DecidableEq, Repr

/-- Execute one node: apply its partial update (LangGraph merges the
returned partial into the state). -/
def execNode (sc : Scenario) : WNode → WState → WState
  | WNode.validate, s =>
    if sc.validateThrows then
      { s with errorOccurred := true, error := some ("Validation failed".data) }
    else
      { s with messageText := some ("msg".data), shouldProcess := sc.shouldProcess,
               errorOccurred := false }
  | WNode.acknowledge, s => { s with acknowledgmentSent := !sc.ackFails }
  | WNode.fetchContext, s =>
    if sc.fetchFails then
      { s with errorOccurred := true, error := some ("Failed to fetch context".data) }
    else
      { s with threadHistory := ["msg".data], conversationContext := ["msg".data] }
  | WNode.callClaude, s =>
    if sc.claudeFails then
      { s with errorOccurred := true, error := some ("Claude service failed".data) }
    else
      { s with claudeResponse := some ("response".data) }
  | WNode.validateSlackFormatting, s =>
    if sc.vsfFails then
      { s with errorOccurred := true,
               error := some ("Slack formatting validation failed".data) }
    else
      { s with needsSlackFormatting := false,
               slackValidatedResponse := s.claudeResponse }
  | WNode.formatResponse, s =>
    if sc.formatFails then
      { s with errorOccurred := true,
               error := some ("Response formatting failed".data) }
    else
      { s with formattedResponse := some ("formatted".data) }
  | WNode.sendResponse, s =>
    if sc.sendFails then
      { s with errorOccurred := true,
               error := some ("Failed to send response".data) }
    else s
  | WNode.handleError, s => s

/-- The edges of `createBaseWorkflow`: conditional routing exists only
after `validate`, `callClaude` and `validateSlackFormatting`; every other
edge is unconditional.  `none` is the `__end__` node. -/
def nextWNode : WNode → WState → Option WNode
  | WNode.validate, s =>
    if s.errorOccurred then some WNode.handleError
    else if !s.shouldProcess then none
    else some WNode.acknowledge
  | WNode.acknowledge, _ => some WNode.fetchContext
  | WNode.fetchContext, _ => some WNode.callClaude
  | WNode.callClaude, s =>
    if s.errorOccurred then some WNode.handleError
    else some WNode.validateSlackFormatting
  | WNode.validateSlackFormatting, s =>
    if s.errorOccurred then some WNode.handleError
    else some WNode.formatResponse
  | WNode.formatResponse, _ => some WNode.sendResponse
  | WNode.sendResponse, _ => none
  | WNode.handleError, _ => none

/-- Run the graph, recording for each executed node the value of
`errorOccurred` at its entry. -/
def runWorkflowF : Nat → Scenario → WNode → WState → List (WNode × Bool) × WState
  | 0, _, _, s => ([], s)
  | f + 1, sc, n, s =>
    let s' := execNode sc n s
    match nextWNode n s' with
    | none => ([(n, s.errorOccurred)], s')
    | some m =>
      let r := runWorkflowF f sc m s'
      ((n, s.errorOccurred) :: r.1, r.2)

/-- The trace of one invocation (node, `errorOccurred` seen at entry),
starting from `validate` on the initial state; ten steps of fuel exceed
the longest path of the graph. -/
def workflowTrace (sc : Scenario) : List (WNode × Bool) :=
  (runWorkflowF 10 sc WNode.validate initialWState).1

/-- The final state of one invocation. -/
def workflowFinal (sc : Scenario) : WState :=
  (runWorkflowF 10 sc WNode.validate initialWState).2

/-- An invocation passes the `shouldProcess` gate when `validate` succeeds
and decides to process. -/
def gatePass (sc : Scenario) : Bool := !sc.validateThrows && sc.shouldProcess

/-- Part (i) of the spec invariant: every node that starts executing after
`errorOccurred` became true is the terminal error node. -/
def onlyErrorNodeAfterError (tr : List (WNode × Bool)) : Bool :=
  tr.all (fun p => !p.2 || p.1 == WNode.handleError)

/-- Part (iii) of the spec invariant for one invocation: exactly one of
`reportError` reached and `deliver` succeeded. -/
def exactlyOneTerminal (sc : Scenario) : Bool :=
  let ns := (workflowTrace sc).map Prod.fst
  xor (ns.contains WNode.handleError)
    (ns.contains WNode.sendResponse && !sc.sendFails)

/-- The whole claimed invariant, per invocation. -/
def claim1Prop (sc : Scenario) : Bool :=
  onlyErrorNodeAfterError (workflowTrace sc) &&
    (!(gatePass sc) || exactlyOneTerminal sc)

/-- A gate-passing invocation where the Slack delivery call fails. -/
def scenarioSendFails : Scenario :=
  { validateThrows := false, shouldProcess := true, ackFails := false
    fetchFails := false, claudeFails := false, vsfFails := false
    formatFails := false, sendFails := true }

/-- A gate-passing invocation where the context fetch fails internally. -/
def scenarioFetchFails : Scenario :=
  { validateThrows := false, shouldProcess := true, ackFails := false
    fetchFails := true, claudeFails := false, vsfFails := false
    formatFails := false, sendFails := false }

/-! ### Normal-form predicates for the `cleanResponse` idempotence proof -/

/-- No two adjacent space-or-tab characters. -/
def noAdjST : List Char → Bool
  | c1 :: c2 :: rest => (!(isST c1 && isST c2)) && noAdjST (c2 :: rest)
  | _ => true

/-- No three consecutive newline characters. -/
def noTripleNl : List Char → Bool
  | c1 :: c2 :: c3 :: rest =>
    (!(c1 == '\n' && c2 == '\n' && c3 == '\n')) && noTripleNl (c2 :: c3 :: rest)
  | _ => true

/-- Length of the leading run of newlines. -/
def nlLead (l : List Char) : Nat := (l.takeWhile (fun c => c == '\n')).length

/-! ## Theorems -/

/-- When none of the three defect detectors fires, the normalizer is the
identity (shared helper for the normalizer claims). -/
theorem normalize_eq_of_no_defects (l : List Char)
    (h1 : hasHtmlLinks l = false) (h2 : hasMarkdownHeaders l = false)
    (h3 : hasDoubleAsterisks l = false) : normalize l = l := by
  simp [normalize, needsFormatting, h1, h2, h3]

/-- When the normalizer leaves its input unchanged or corrects it, the
result of a false `needsFormatting` test is that each single detector is
false (shared helper). -/
theorem detectors_false_of_not_needsFormatting (l : List Char)
    (h : needsFormatting l = false) :
    hasHtmlLinks l = false ∧ hasMarkdownHeaders l = false ∧
      hasDoubleAsterisks l = false := by
  have h' : (hasHtmlLinks l = false ∧ hasMarkdownHeaders l = false) ∧
      hasDoubleAsterisks l = false := by simpa [needsFormatting] using h
  exact ⟨h'.1.1, h'.1.2, h'.2⟩

/-- Claim C4: identity on clean input — a string on which none of the three
defect detectors (anchor links, ATX headers, double-asterisk bold) fires is
returned by the normalizer completely unchanged. -/
theorem claim4_identity_on_clean_input (l : List Char)
    (h1 : hasHtmlLinks l = false) (h2 : hasMarkdownHeaders l = false)
    (h3 : hasDoubleAsterisks l = false) : normalize l = l :=
  normalize_eq_of_no_defects l h1 h2 h3

/-- Witness for claim C4 at a concrete clean string. -/
theorem claim4_witness :
    hasHtmlLinks ("hello *world*".data) = false ∧
    hasMarkdownHeaders ("hello *world*".data) = false ∧
    hasDoubleAsterisks ("hello *world*".data) = false ∧
    normalize ("hello *world*".data) = ("hello *world*".data) :=
  ⟨by decide, by decide, by decide,
    claim4_identity_on_clean_input _ (by decide) (by decide) (by decide)⟩

/-- Claim C2 counterexample: the normalizer is not idempotent.  On
`***bold***` the double-asterisk pass yields `**bold**`, on which the
double-asterisk detector fires again, so a second application rewrites the
output once more. -/
theorem claim2_counterexample :
    normalize ("***bold***".data) = ("**bold**".data) ∧
    normalize (normalize ("***bold***".data)) ≠ normalize ("***bold***".data) := by
  constructor
  · decide
  · decide

/-- Claim C2 as amended: the normalizer is idempotent on every input whose
normalized output passes the three defect detectors (the detectors do not
evaluate false on all normalized text, so this hypothesis does not hold for
every string). -/
theorem claim2_amended_idempotent_on_detected_clean_output (l : List Char)
    (h1 : hasHtmlLinks (normalize l) = false)
    (h2 : hasMarkdownHeaders (normalize l) = false)
    (h3 : hasDoubleAsterisks (normalize l) = false) :
    normalize (normalize l) = normalize l :=
  normalize_eq_of_no_defects (normalize l) h1 h2 h3

/-- Witness for the amended claim C2 at a concrete input. -/
theorem claim2_witness :
    hasHtmlLinks (normalize ("## Title".data)) = false ∧
    hasMarkdownHeaders (normalize ("## Title".data)) = false ∧
    hasDoubleAsterisks (normalize ("## Title".data)) = false ∧
    normalize (normalize ("## Title".data)) = normalize ("## Title".data) :=
  ⟨by decide, by decide, by decide,
    claim2_amended_idempotent_on_detected_clean_output _ (by decide) (by decide)
      (by decide)⟩

/-- Claim C3 counterexample: normalized output can retain a residual
defect.  The header detector `^#{1,6}\s+` fires on the line `# ` (hash and
one trailing space), but the header conversion `^#{1,6}\s+(.+)$` needs a
non-empty capture and leaves the line unchanged, so the ATX header survives
normalization. -/
theorem claim3_counterexample :
    normalize ("# ".data) = ("# ".data) ∧
    hasMarkdownHeaders (normalize ("# ".data)) = true := by
  constructor
  · decide
  · decide

/-- Claim C3 as amended: the normalizer's output passes the three defect
detectors for every input on which the fallback conversion's output does
(degenerate inputs such as a content-free header line `# ` or overlapping
bold runs `***bold***` escape the conversion, so this does not hold
unconditionally). -/
theorem claim3_amended_no_residual_defects (l : List Char)
    (h1 : hasHtmlLinks (basicSlackFormatConversion l) = false)
    (h2 : hasMarkdownHeaders (basicSlackFormatConversion l) = false)
    (h3 : hasDoubleAsterisks (basicSlackFormatConversion l) = false) :
    hasHtmlLinks (normalize l) = false ∧
    hasMarkdownHeaders (normalize l) = false ∧
    hasDoubleAsterisks (normalize l) = false := by
  by_cases h : needsFormatting l
  · simpa [normalize, h] using ⟨h1, h2, h3⟩
  · have h' := detectors_false_of_not_needsFormatting l (by simpa using h)
    simpa [normalize, h] using h'

/-- Witness for the amended claim C3 at a concrete defective input. -/
theorem claim3_witness :
    hasHtmlLinks (basicSlackFormatConversion ("## Title\n**bold**".data)) = false ∧
    hasMarkdownHeaders (basicSlackFormatConversion ("## Title\n**bold**".data)) = false ∧
    hasDoubleAsterisks (basicSlackFormatConversion ("## Title\n**bold**".data)) = false ∧
    (hasHtmlLinks (normalize ("## Title\n**bold**".data)) = false ∧
     hasMarkdownHeaders (normalize ("## Title\n**bold**".data)) = false ∧
     hasDoubleAsterisks (normalize ("## Title\n**bold**".data)) = false) :=
  ⟨by decide, by decide, by decide,
    claim3_amended_no_residual_defects _ (by decide) (by decide) (by decide)⟩

/-- Claim C5 counterexample: on the spec scenario's input the fallback does
not canonicalize the url at all, because `basicSlackFormatConversion`
applies the url clean-up only to urls containing `sefaria.org`, and
`example.org` does not. -/
theorem claim5_counterexample :
    basicSlackFormatConversion
        ("<a href=\"https://example.org/Genesis 3:4\" target=\"_blank\">Genesis 3:4</a>".data) =
      ("<https://example.org/Genesis 3:4|Genesis 3:4>".data) ∧
    basicSlackFormatConversion
        ("<a href=\"https://example.org/Genesis 3:4\" target=\"_blank\">Genesis 3:4</a>".data) ≠
      ("<https://example.org/Genesis.3.4|Genesis 3:4>".data) := by
  constructor
  · decide
  · decide

/-- Claim C1 counterexample: the workflow graph does not satisfy the
claimed invariant.  A `fetchContext` failure flows through the
unconditional edge into `callClaude`, which executes while `errorOccurred`
is already true; a `sendResponse` failure ends the run with neither
`handleError` reached nor a successful delivery, so no terminal outcome of
the claimed pair occurs. -/
theorem claim1_counterexample :
    claim1Prop scenarioFetchFails = false ∧
    claim1Prop scenarioSendFails = false ∧
    workflowTrace scenarioFetchFails =
      [(WNode.validate, false), (WNode.acknowledge, false),
       (WNode.fetchContext, false), (WNode.callClaude, true),
       (WNode.handleError, true)] ∧
    workflowTrace scenarioSendFails =
      [(WNode.validate, false), (WNode.acknowledge, false),
       (WNode.fetchContext, false), (WNode.callClaude, false),
       (WNode.validateSlackFormatting, false), (WNode.formatResponse, false),
       (WNode.sendResponse, false)] ∧
    ((workflowTrace scenarioSendFails).map Prod.fst).contains WNode.handleError
      = false := by
  refine ⟨?_, ?_, ?_, ?_, ?_⟩ <;> decide

/-- Claim C1 as amended: error branching to the terminal error node exists
only after `validate`, `callClaude` and `validateSlackFormatting`; the only
nodes that can begin executing after `errorOccurred` is true are
`callClaude` (after a `fetchContext` failure), `sendResponse` (after a
`formatResponse` failure) and `handleError`; and every gate-passing
invocation reaches exactly one of `handleError` and `sendResponse` (the
delivery node runs even when formatting failed, and a failed delivery does
not reach `handleError`). -/
theorem claim1_amended_graph_dichotomy :
    ∀ (a b c d e f g h : Bool),
    gatePass (Scenario.mk a b c d e f g h) = true →
    xor (((workflowTrace (Scenario.mk a b c d e f g h)).map Prod.fst).contains
          WNode.handleError)
        (((workflowTrace (Scenario.mk a b c d e f g h)).map Prod.fst).contains
          WNode.sendResponse) = true ∧
    (workflowTrace (Scenario.mk a b c d e f g h)).all
        (fun p => !p.2 || (p.1 == WNode.callClaude || p.1 == WNode.sendResponse ||
          p.1 == WNode.handleError)) = true := by
  decide

/-- Witness for the amended claim C1 on a concrete gate-passing scenario. -/
theorem claim1_witness :
    gatePass (Scenario.mk false true false false false false false false) = true ∧
    (xor (((workflowTrace (Scenario.mk false true false false false false false
            false)).map Prod.fst).contains WNode.handleError)
        (((workflowTrace (Scenario.mk false true false false false false false
            false)).map Prod.fst).contains WNode.sendResponse) = true ∧
      (workflowTrace (Scenario.mk false true false false false false false
          false)).all
        (fun p => !p.2 || (p.1 == WNode.callClaude || p.1 == WNode.sendResponse ||
          p.1 == WNode.handleError)) = true) :=
  ⟨by decide,
    claim1_amended_graph_dichotomy false true false false false false false false
      (by decide)⟩

/-- Shared helper: the cache produced by dispatching a fresh key still
contains that key (the key is appended last, so eviction of the 500 oldest
entries never removes it). -/
theorem handleEventDedup_keeps_key (cache : List (List Char)) (k : List Char)
    (hk : seenMsg cache k = false) :
    seenMsg (handleEventDedup cache k).2 k = true := by
  have hmark : markSeenMsg cache k = cache ++ [k] := by
    simp [markSeenMsg, seenMsg] at hk ⊢
    simp [hk]
  have h2 : (handleEventDedup cache k).2 = dedupEvict (cache ++ [k]) := by
    simp [handleEventDedup, hk, hmark]
  rw [h2]
  unfold dedupEvict
  by_cases hlen : 1000 < (cache ++ [k]).length
  · have hle : 500 ≤ cache.length := by
      simp only [List.length_append, List.length_cons, List.length_nil] at hlen
      omega
    rw [if_pos hlen, List.drop_append_of_le_length hle]
    simp [seenMsg]
  · rw [if_neg hlen]
    simp [seenMsg]

/-- Claim C6: deduplication behaves as specified — a fresh key is unseen,
is seen after marking, is dispatched exactly once while cached (a second
submission is skipped before workflow dispatch), and when the cache grows
past 1000 entries exactly the 500 oldest entries in insertion order are
evicted. -/
theorem claim6_dedup (cache : List (List Char)) (k : List Char)
    (hk : seenMsg cache k = false) :
    seenMsg cache k = false ∧
    seenMsg (markSeenMsg cache k) k = true ∧
    (handleEventDedup cache k).1 = true ∧
    (handleEventDedup (handleEventDedup cache k).2 k).1 = false ∧
    (1000 < cache.length + 1 →
      (handleEventDedup cache k).2 = (cache ++ [k]).drop 500) := by
  have hmark : markSeenMsg cache k = cache ++ [k] := by
    simp [markSeenMsg, seenMsg] at hk ⊢
    simp [hk]
  refine ⟨hk, ?_, ?_, ?_, ?_⟩
  · rw [hmark]; simp [seenMsg]
  · simp [handleEventDedup, hk]
  · have hkeep := handleEventDedup_keeps_key cache k hk
    have hgen : ∀ c2, seenMsg c2 k = true → (handleEventDedup c2 k).1 = false := by
      intro c2 h
      simp [handleEventDedup, h]
    exact hgen _ hkeep
  · intro hlen
    have hgt : 1000 < (cache ++ [k]).length := by
      simp only [List.length_append, List.length_cons, List.length_nil]
      omega
    have h2 : (handleEventDedup cache k).2 = dedupEvict (cache ++ [k]) := by
      simp [handleEventDedup, hk, hmark]
    rw [h2]
    unfold dedupEvict
    rw [if_pos hgt]

/-- Witness for claim C6 on an empty cache and a concrete key. -/
theorem claim6_witness :
    seenMsg [] ("C1-1700000000.000100".data) = false ∧
    (seenMsg [] ("C1-1700000000.000100".data) = false ∧
     seenMsg (markSeenMsg [] ("C1-1700000000.000100".data))
        ("C1-1700000000.000100".data) = true ∧
     (handleEventDedup [] ("C1-1700000000.000100".data)).1 = true ∧
     (handleEventDedup (handleEventDedup [] ("C1-1700000000.000100".data)).2
        ("C1-1700000000.000100".data)).1 = false ∧
     (1000 < List.length ([] : List (List Char)) + 1 →
       (handleEventDedup [] ("C1-1700000000.000100".data)).2 =
         (([] : List (List Char)) ++ [("C1-1700000000.000100".data)]).drop 500)) :=
  ⟨by decide, claim6_dedup [] _ (by decide)⟩

/-- Shared helper: with an empty user-id cache and mentions that match
neither hardcoded fallback id, the bot loop falls through to `bina`. -/
theorem findMentionedBot_empty_cache (mentioned : List (List Char))
    (h9 : ¬ ("U090X3GGN93".data) ∈ mentioned)
    (h9b : ¬ ("U09EBP618TW".data) ∈ mentioned) :
    ∀ bots, findMentionedBot [] mentioned bots = ("bina".data) := by
  intro bots
  induction bots with
  | nil => rfl
  | cons b bs ih =>
    have hc1 : mentioned.contains ("U090X3GGN93".data) = false := by
      simp [List.elem_iff, h9]
    have hc2 : mentioned.contains ("U09EBP618TW".data) = false := by
      simp [List.elem_iff, h9b]
    have hcl : cacheLookup [] b = none := rfl
    have hcand : getBotUserIdCandidate [] b mentioned = none := by
      unfold getBotUserIdCandidate
      rw [hcl]
      show (match fallbackMapping b with
        | some fid => if mentioned.contains fid = true then some fid else none
        | none => none) = none
      unfold fallbackMapping
      by_cases hb : b == ("binah".data)
      · rw [if_pos hb]
        show (if mentioned.contains ("U090X3GGN93".data) = true
          then some ("U090X3GGN93".data) else none) = none
        rw [hc1]
        simp
      · rw [if_neg hb]
        by_cases hb2 : b == ("bina".data)
        · rw [if_pos hb2]
          show (if mentioned.contains ("U09EBP618TW".data) = true
            then some ("U09EBP618TW".data) else none) = none
          rw [hc2]
          simp
        · rw [if_neg hb2]
    unfold findMentionedBot
    rw [hcand]
    simpa using ih

/-- Claim C7: routing defaults — an inbound event with no bot-account
sender identifier routes to the default bot `bina`; a failed identity
resolution (the `bots.info` oracle returning nothing) also yields `bina`;
in the mention-based router an event without mentions, or whose mentions
match no cached or fallback bot user id, likewise yields `bina`. -/
theorem claim7_routing_default :
    (∀ (resolveBot : List Char → Option (List Char)) (body : RequestBody),
      (∀ e, body.event = some e → truthyS e.bot_id = false) →
      detectBotFromMessage resolveBot body = ("bina".data)) ∧
    (∀ body : RequestBody,
      detectBotFromMessage (fun _ => none) body = ("bina".data)) ∧
    (∀ (cache : List (List Char × List Char)) (bots : List (List Char))
        (body : RequestBody) (e : SlackEventR), body.event = some e →
      mentionedUserIds (eventTextOrEmpty e) = [] →
      detectBotFromMessageV2 cache bots body = ("bina".data)) ∧
    (∀ (bots : List (List Char)) (body : RequestBody) (e : SlackEventR),
      body.event = some e →
      (∀ m ∈ mentionedUserIds (eventTextOrEmpty e),
        m ≠ ("U090X3GGN93".data) ∧ m ≠ ("U09EBP618TW".data)) →
      detectBotFromMessageV2 [] bots body = ("bina".data)) := by
  refine ⟨?_, ?_, ?_, ?_⟩
  · intro resolveBot body h
    unfold detectBotFromMessage
    by_cases hv : body.rtype == ("url_verification".data)
    · simp [hv]
    · cases hev : body.event with
      | none => simp [hv, hev]
      | some e =>
        have hb := h e hev
        by_cases hm : e.etype == ("message".data) <;> simp [hv, hev, hm, hb]
  · intro body
    unfold detectBotFromMessage
    by_cases hv : body.rtype == ("url_verification".data)
    · simp [hv]
    · cases hev : body.event with
      | none => simp [hv, hev]
      | some e =>
        by_cases hm : e.etype == ("message".data)
        · by_cases hb : truthyS e.bot_id
          · cases hbid : e.bot_id <;> simp [hv, hev, hm, hb, hbid]
          · simp [hv, hev, hm, hb]
        · simp [hv, hev, hm]
  · intro cache bots body e hev hment
    unfold detectBotFromMessageV2
    by_cases hv : body.rtype == ("url_verification".data)
    · simp [hv]
    · by_cases hm : e.etype == ("message".data) <;> simp [hv, hev, hm, hment]
  · intro bots body e hev hment
    unfold detectBotFromMessageV2
    by_cases hv : body.rtype == ("url_verification".data)
    · simp [hv]
    · have h9 : ¬ ("U090X3GGN93".data) ∈ mentionedUserIds (eventTextOrEmpty e) :=
        fun hmem => (hment _ hmem).1 rfl
      have h9b : ¬ ("U09EBP618TW".data) ∈ mentionedUserIds (eventTextOrEmpty e) :=
        fun hmem => (hment _ hmem).2 rfl
      have hfall := findMentionedBot_empty_cache _ h9 h9b bots
      by_cases hm : e.etype == ("message".data) <;>
        by_cases hme : (mentionedUserIds (eventTextOrEmpty e)).isEmpty <;>
          simp [hv, hev, hm, hme, hfall]

/-- Witness for claim C7 at concrete inputs: an event with no `bot_id`, a
failing resolver, an event without mentions, and an event mentioning an
unknown user id. -/
theorem claim7_witness :
    ((∀ e, (RequestBody.mk ("event_callback".data)
        (some (SlackEventR.mk ("message".data) (some ("hi there".data)) none none
          (some ("U777".data)) none))).event = some e → truthyS e.bot_id = false) ∧
      detectBotFromMessage (fun _ => none)
        (RequestBody.mk ("event_callback".data)
          (some (SlackEventR.mk ("message".data) (some ("hi there".data)) none none
            (some ("U777".data)) none))) = ("bina".data)) ∧
    detectBotFromMessageV2 []
      [("bina".data), ("binah".data)]
      (RequestBody.mk ("event_callback".data)
        (some (SlackEventR.mk ("message".data) (some ("<@U00UNKNOWN1> hi".data))
          none none (some ("U777".data)) none))) = ("bina".data) := by
  refine ⟨⟨?_, ?_⟩, ?_⟩
  · intro e he
    cases Option.some.inj he
    decide
  · exact claim7_routing_default.2.1 _
  · exact claim7_routing_default.2.2.2 _ _
      (SlackEventR.mk ("message".data) (some ("<@U00UNKNOWN1> hi".data))
        none none (some ("U777".data)) none) rfl (by decide)

/-- Claim C10: the validate gate rejects every event that carries a
`bot_id`, or a non-`bot_message` subtype, or is authored by the bot's own
resolved user id, or has no (or empty) message text — so bot-authored and
textless messages are never processed.  The second conjunct ties the gate
to the graph: an invocation whose validation yields `shouldProcess = false`
without error executes no node beyond `validate`. -/
theorem claim10_bot_loop_guard :
    (∀ (botId : List Char) (e : SlackEventR),
      (truthyS e.bot_id = true ∨
        (truthyS e.subtype = true ∧ e.subtype ≠ some ("bot_message".data)) ∨
        e.user = some botId ∨
        getMessageText e = none ∨ getMessageText e = some []) →
      shouldProcessMessage botId e = false) ∧
    (∀ sc : Scenario, sc.shouldProcess = false → sc.validateThrows = false →
      workflowTrace sc = [(WNode.validate, false)]) := by
  constructor
  · intro botId e h
    by_cases h1 : truthyS e.bot_id
    · simp [shouldProcessMessage, h1]
    · rcases h with hb | ⟨hs, hsn⟩ | hu | ht | ht
      · exact absurd hb h1
      · have : (e.subtype == some ("bot_message".data)) = false := by simp [hsn]
        simp [shouldProcessMessage, h1, hs, this]
      · by_cases h2 : truthyS e.subtype && !(e.subtype == some ("bot_message".data)) <;>
          simp [shouldProcessMessage, h1, h2, hu]
      · by_cases h2 : truthyS e.subtype && !(e.subtype == some ("bot_message".data)) <;>
          by_cases h3 : e.user == some botId <;>
            simp [shouldProcessMessage, h1, h2, h3, ht]
      · by_cases h2 : truthyS e.subtype && !(e.subtype == some ("bot_message".data)) <;>
          by_cases h3 : e.user == some botId <;>
            simp [shouldProcessMessage, h1, h2, h3, ht]
  · intro sc
    obtain ⟨v, s, a, f, c, vf, fm, sd⟩ := sc
    revert v s a f c vf fm sd
    decide

/-- Witness for claim C10 on a concrete bot-authored event and a concrete
gate-failing scenario. -/
theorem claim10_witness :
    (truthyS (some ("B0XYZ".data)) = true ∨
      ((truthyS (none : Option (List Char)) = true ∧
          (none : Option (List Char)) ≠ some ("bot_message".data)) ∨
        some ("U2".data) = some ("U1".data) ∨
        getMessageText (SlackEventR.mk ("message".data) (some ("<@U1> hi".data))
            (some ("B0XYZ".data)) none (some ("U2".data)) none) = none ∨
        getMessageText (SlackEventR.mk ("message".data) (some ("<@U1> hi".data))
            (some ("B0XYZ".data)) none (some ("U2".data)) none) = some [])) ∧
    shouldProcessMessage ("U1".data)
      (SlackEventR.mk ("message".data) (some ("<@U1> hi".data))
        (some ("B0XYZ".data)) none (some ("U2".data)) none) = false ∧
    Scenario.shouldProcess
        (Scenario.mk false false false false false false false false) = false ∧
    workflowTrace (Scenario.mk false false false false false false false false) =
      [(WNode.validate, false)] :=
  ⟨Or.inl (by decide), claim10_bot_loop_guard.1 _ _ (Or.inl (by decide)),
    by decide, claim10_bot_loop_guard.2 _ (by decide) (by decide)⟩

/-! Helper lemmas for the `cleanResponse` idempotence development. -/

theorem noAdjST_cons (c : Char) (l : List Char) :
    noAdjST (c :: l) = ((match l.head? with
      | some x => !(isST c && isST x)
      | none => true) && noAdjST l) := by
  cases l <;> simp [noAdjST]

theorem noTripleNl_cons (c : Char) (l : List Char) :
    noTripleNl (c :: l) = ((match l with
      | x :: y :: _ => !(c == '\n' && x == '\n' && y == '\n')
      | _ => true) && noTripleNl l) := by
  match l with
  | [] => simp [noTripleNl]
  | [x] => simp [noTripleNl]
  | x :: y :: r => rfl

theorem noAdjST_tail (c : Char) (l : List Char)
    (h : noAdjST (c :: l) = true) : noAdjST l = true := by
  rw [noAdjST_cons, Bool.and_eq_true] at h
  exact h.2

theorem noTripleNl_tail (c : Char) (l : List Char)
    (h : noTripleNl (c :: l) = true) : noTripleNl l = true := by
  rw [noTripleNl_cons, Bool.and_eq_true] at h
  exact h.2

theorem noAdjST_dropWhile (p : Char → Bool) (l : List Char)
    (h : noAdjST l = true) : noAdjST (l.dropWhile p) = true := by
  induction l with
  | nil => exact h
  | cons c cs ih =>
    by_cases hp : p c
    · rw [List.dropWhile_cons_of_pos hp]
      exact ih (noAdjST_tail c cs h)
    · rw [List.dropWhile_cons_of_neg hp]
      exact h

theorem noTripleNl_dropWhile (p : Char → Bool) (l : List Char)
    (h : noTripleNl l = true) : noTripleNl (l.dropWhile p) = true := by
  induction l with
  | nil => exact h
  | cons c cs ih =>
    by_cases hp : p c
    · rw [List.dropWhile_cons_of_pos hp]
      exact ih (noTripleNl_tail c cs h)
    · rw [List.dropWhile_cons_of_neg hp]
      exact h

theorem take_two_eq (l : List Char) (k : Nat) (x y : Char) (r : List Char)
    (h : l.take k = x :: y :: r) : ∃ r2, l = x :: y :: r2 := by
  match l, k with
  | [], _ => simp at h
  | a :: t, 0 => simp at h
  | [a], k + 1 => simp at h
  | a :: b :: t, k + 1 =>
    cases k with
    | zero => simp [List.take] at h
    | succ k =>
      rw [List.take_succ_cons, List.take_succ_cons] at h
      obtain ⟨h1, h2, _⟩ := List.cons.injEq .. |>.mp h |>.imp id
        (fun hx => List.cons.injEq .. |>.mp hx)
      exact ⟨t, by rw [h1, h2]⟩

theorem take_head_eq (l : List Char) (k : Nat) (x : Char)
    (h : (l.take k).head? = some x) : l.head? = some x := by
  cases l with
  | nil => simp at h
  | cons c cs =>
    cases k with
    | zero => simp at h
    | succ k => simpa using h

theorem noAdjST_take (l : List Char) (k : Nat)
    (h : noAdjST l = true) : noAdjST (l.take k) = true := by
  induction l generalizing k with
  | nil => simp [noAdjST]
  | cons c cs ih =>
    cases k with
    | zero => simp [noAdjST]
    | succ k =>
      rw [List.take_succ_cons, noAdjST_cons, Bool.and_eq_true]
      rw [noAdjST_cons, Bool.and_eq_true] at h
      obtain ⟨h1, h2⟩ := h
      refine ⟨?_, ih k h2⟩
      cases hh : (cs.take k).head? with
      | none => rfl
      | some x => rw [take_head_eq cs k x hh] at h1; exact h1

theorem noTripleNl_take (l : List Char) (k : Nat)
    (h : noTripleNl l = true) : noTripleNl (l.take k) = true := by
  induction l generalizing k with
  | nil => simp [noTripleNl]
  | cons c cs ih =>
    cases k with
    | zero => simp [noTripleNl]
    | succ k =>
      rw [List.take_succ_cons, noTripleNl_cons, Bool.and_eq_true]
      rw [noTripleNl_cons, Bool.and_eq_true] at h
      obtain ⟨h1, h2⟩ := h
      refine ⟨?_, ih k h2⟩
      cases hh : cs.take k with
      | nil => simp
      | cons x xs =>
        cases xs with
        | nil => simp
        | cons y ys =>
          obtain ⟨r2, hr⟩ := take_two_eq cs k x y ys hh
          rw [hr] at h1
          simpa using h1

theorem dropWhile_head_false (p : Char → Bool) (l : List Char) (x : Char)
    (h : (l.dropWhile p).head? = some x) : p x = false := by
  induction l with
  | nil => simp at h
  | cons c cs ih =>
    by_cases hp : p c
    · rw [List.dropWhile_cons_of_pos hp] at h
      exact ih h
    · rw [List.dropWhile_cons_of_neg hp] at h
      simp at h
      rw [← h]
      exact Bool.eq_false_iff.mpr hp

theorem dropTrailingWs_head (l : List Char) (x : Char) (xs : List Char)
    (h : dropTrailingWs l = x :: xs) : l.head? = some x := by
  cases l with
  | nil => simp [dropTrailingWs] at h
  | cons c cs =>
    show some c = some x
    have hc : dropTrailingWs (c :: cs) = match dropTrailingWs cs with
      | [] => if jsWs c then [] else [c]
      | y :: ys => c :: y :: ys := rfl
    rw [hc] at h
    cases hcs : dropTrailingWs cs with
    | nil =>
      rw [hcs] at h
      by_cases hw : jsWs c
      · simp [hw] at h
      · simp [hw] at h
        exact congrArg some h.1
    | cons y ys =>
      rw [hcs] at h
      exact congrArg some (List.cons.injEq .. |>.mp h).1

theorem dropTrailingWs_exists_take (l : List Char) :
    ∃ k, dropTrailingWs l = l.take k := by
  induction l with
  | nil => exact ⟨0, rfl⟩
  | cons c cs ih =>
    obtain ⟨k, hk⟩ := ih
    have hc : dropTrailingWs (c :: cs) = match dropTrailingWs cs with
      | [] => if jsWs c then [] else [c]
      | y :: ys => c :: y :: ys := rfl
    cases hcs : dropTrailingWs cs with
    | nil =>
      by_cases hw : jsWs c
      · exact ⟨0, by rw [hc, hcs]; simp [hw]⟩
      · exact ⟨1, by rw [hc, hcs]; simp [hw, List.take]⟩
    | cons y ys =>
      refine ⟨k + 1, ?_⟩
      rw [hc, hcs, List.take_succ_cons, ← hk, hcs]

theorem dropTrailingWs_getLast_not_ws (l : List Char) (x : Char)
    (h : (dropTrailingWs l).getLast? = some x) : jsWs x = false := by
  induction l with
  | nil => simp [dropTrailingWs] at h
  | cons c cs ih =>
    have hc : dropTrailingWs (c :: cs) = match dropTrailingWs cs with
      | [] => if jsWs c then [] else [c]
      | y :: ys => c :: y :: ys := rfl
    rw [hc] at h
    cases hcs : dropTrailingWs cs with
    | nil =>
      rw [hcs] at h
      by_cases hw : jsWs c
      · simp [hw] at h
      · simp [hw] at h
        rw [← h]
        exact Bool.eq_false_iff.mpr hw
    | cons y ys =>
      rw [hcs] at h
      rw [List.getLast?_cons_cons] at h
      rw [← hcs] at h
      exact ih h

theorem dropTrailingWs_eq_self_of_getLast (l : List Char)
    (h : ∀ x, l.getLast? = some x → jsWs x = false) : dropTrailingWs l = l := by
  induction l with
  | nil => rfl
  | cons c cs ih =>
    have hc : dropTrailingWs (c :: cs) = match dropTrailingWs cs with
      | [] => if jsWs c then [] else [c]
      | y :: ys => c :: y :: ys := rfl
    rw [hc]
    cases cs with
    | nil =>
      have := h c rfl
      simp [dropTrailingWs, this]
    | cons b bs =>
      have hcs : dropTrailingWs (b :: bs) = b :: bs := by
        apply ih
        intro x hx
        apply h
        rw [List.getLast?_cons_cons]
        exact hx
      rw [hcs]

theorem dropWhileLen_le (p : Char → Bool) (l : List Char) :
    (l.dropWhile p).length ≤ l.length := by
  induction l with
  | nil => simp
  | cons c cs ih =>
    by_cases hp : p c
    · rw [List.dropWhile_cons_of_pos hp]
      exact Nat.le_trans ih (Nat.le_succ _)
    · rw [List.dropWhile_cons_of_neg hp]

theorem collapseSpacesF_nil (f : Nat) : collapseSpacesF f [] = [] := by
  cases f <;> rfl

theorem collapseNlF_nil (f : Nat) : collapseNlF f [] = [] := by
  cases f <;> rfl

theorem collapseSpacesF_head_keep (f : Nat) (c : Char) (cs : List Char)
    (h : isST c = false) : (collapseSpacesF f (c :: cs)).head? = some c := by
  cases f with
  | zero => rfl
  | succ f => simp [collapseSpacesF, h]

theorem collapseNlF_head (f : Nat) (l : List Char) :
    (collapseNlF f l).head? = l.head? := by
  cases f with
  | zero => rfl
  | succ f =>
    cases l with
    | nil => rfl
    | cons c cs =>
      by_cases hc : (c == '\n') = true
      · have hceq : c = '\n' := by simpa using hc
        subst hceq
        cases cs with
        | nil => rfl
        | cons c2 cs2 =>
          cases cs2 with
          | nil => rfl
          | cons c3 cs3 =>
            by_cases h23 : (c2 == '\n' && c3 == '\n') = true <;>
              simp [collapseNlF, h23]
      · simp [collapseNlF, hc]

theorem nlLead_nil : nlLead [] = 0 := rfl

theorem nlLead_cons (c : Char) (l : List Char) :
    nlLead (c :: l) = if (c == '\n') = true then nlLead l + 1 else 0 := by
  by_cases hc : (c == '\n') = true <;>
    simp [nlLead, List.takeWhile_cons, hc]

theorem head_not_nl_of_nlLead_zero (x : Char) (xs : List Char)
    (h : nlLead (x :: xs) = 0) : (x == '\n') = false := by
  by_cases hb : (x == '\n') = true
  · rw [nlLead_cons, if_pos hb] at h
    omega
  · simpa using hb

theorem noTriple_nlnl_cons (X : List Char) (h0 : nlLead X = 0)
    (hX : noTripleNl X = true) : noTripleNl ('\n' :: '\n' :: X) = true := by
  cases X with
  | nil => rfl
  | cons x0 xs =>
    have hx0 : (x0 == '\n') = false := head_not_nl_of_nlLead_zero x0 xs h0
    show (!('\n' == '\n' && '\n' == '\n' && x0 == '\n') &&
      noTripleNl ('\n' :: x0 :: xs)) = true
    rw [Bool.and_eq_true]
    refine ⟨by simp [hx0], ?_⟩
    cases xs with
    | nil => rfl
    | cons y ys =>
      show (!('\n' == '\n' && x0 == '\n' && y == '\n') &&
        noTripleNl (x0 :: y :: ys)) = true
      rw [Bool.and_eq_true]
      exact ⟨by simp [hx0], hX⟩

theorem noTriple_nl_cons (X : List Char) (h1 : nlLead X ≤ 1)
    (hX : noTripleNl X = true) : noTripleNl ('\n' :: X) = true := by
  cases X with
  | nil => rfl
  | cons x0 xs =>
    cases xs with
    | nil => rfl
    | cons y ys =>
      show (!('\n' == '\n' && x0 == '\n' && y == '\n') &&
        noTripleNl (x0 :: y :: ys)) = true
      rw [Bool.and_eq_true]
      refine ⟨?_, hX⟩
      by_cases hx0 : (x0 == '\n') = true
      · have hy : (y == '\n') = false := by
          rw [nlLead_cons, if_pos hx0] at h1
          have : nlLead (y :: ys) = 0 := by omega
          exact head_not_nl_of_nlLead_zero y ys this
        simp [hy]
      · simp [show (x0 == '\n') = false from by simpa using hx0]

theorem noAdjST_collapseSpacesF :
    ∀ (f : Nat) (l : List Char), l.length ≤ f →
      noAdjST (collapseSpacesF f l) = true := by
  intro f
  induction f with
  | zero =>
    intro l hl
    have : l = [] := List.length_eq_zero.mp (Nat.le_zero.mp hl)
    subst this
    rfl
  | succ f ih =>
    intro l hl
    cases l with
    | nil => rfl
    | cons c cs =>
      have hcs : cs.length ≤ f := by
        simp only [List.length_cons] at hl
        omega
      by_cases hst : isST c = true
      · cases cs with
        | nil => simp [collapseSpacesF, hst, noAdjST]
        | cons c2 cs2 =>
          by_cases h2 : isST c2 = true
          · have hrw : collapseSpacesF (f + 1) (c :: c2 :: cs2) =
                ' ' :: collapseSpacesF f ((c2 :: cs2).dropWhile isST) := by
              simp [collapseSpacesF, hst, h2]
            rw [hrw, noAdjST_cons, Bool.and_eq_true]
            have hdlen : ((c2 :: cs2).dropWhile isST).length ≤ f :=
              Nat.le_trans (dropWhileLen_le _ _) hcs
            refine ⟨?_, ih _ hdlen⟩
            cases hd2 : (c2 :: cs2).dropWhile isST with
            | nil =>
              rw [collapseSpacesF_nil]
              rfl
            | cons x0 xs =>
              have hx0 : isST x0 = false :=
                dropWhile_head_false isST (c2 :: cs2) x0 (by rw [hd2]; rfl)
              rw [collapseSpacesF_head_keep f x0 xs hx0]
              simp [hx0]
          · have h2f : isST c2 = false := by simpa using h2
            have hrw : collapseSpacesF (f + 1) (c :: c2 :: cs2) =
                c :: collapseSpacesF f (c2 :: cs2) := by
              simp [collapseSpacesF, hst, h2]
            rw [hrw, noAdjST_cons, Bool.and_eq_true]
            refine ⟨?_, ih _ hcs⟩
            rw [collapseSpacesF_head_keep f c2 cs2 h2f]
            simp [h2f]
      · have hstf : isST c = false := by simpa using hst
        have hrw : collapseSpacesF (f + 1) (c :: cs) =
            c :: collapseSpacesF f cs := by
          simp [collapseSpacesF, hst]
        rw [hrw, noAdjST_cons, Bool.and_eq_true]
        refine ⟨?_, ih _ hcs⟩
        cases (collapseSpacesF f cs).head? with
        | none => rfl
        | some x => simp [hstf]

theorem collapseSpacesF_eq_self :
    ∀ (f : Nat) (l : List Char), noAdjST l = true → collapseSpacesF f l = l := by
  intro f
  induction f with
  | zero => intro l _; rfl
  | succ f ih =>
    intro l h
    cases l with
    | nil => rfl
    | cons c cs =>
      by_cases hst : isST c = true
      · cases cs with
        | nil => simp [collapseSpacesF, hst]
        | cons c2 cs2 =>
          rw [noAdjST_cons, Bool.and_eq_true] at h
          obtain ⟨h1, h2⟩ := h
          have h2f : isST c2 = false := by
            simp only [List.head?_cons] at h1
            by_cases hb : isST c2 = true
            · rw [hst, hb] at h1
              simp at h1
            · simpa using hb
          simp only [collapseSpacesF, hst, if_true, h2f]
          simp [ih _ h2]
      · simp only [collapseSpacesF]
        rw [if_neg hst]
        rw [ih _ (noAdjST_tail _ _ h)]

theorem noAdjST_collapseNlF :
    ∀ (f : Nat) (l : List Char), noAdjST l = true →
      noAdjST (collapseNlF f l) = true := by
  intro f
  induction f with
  | zero => intro l h; exact h
  | succ f ih =>
    intro l h
    cases l with
    | nil => rfl
    | cons c cs =>
      by_cases hc : (c == '\n') = true
      · have hceq : c = '\n' := by simpa using hc
        subst hceq
        have hnst : isST '\n' = false := by decide
        cases cs with
        | nil =>
          rw [show collapseNlF (f + 1) ['\n'] = '\n' :: collapseNlF f [] from rfl]
          rw [collapseNlF_nil]
          rfl
        | cons c2 cs2 =>
          cases cs2 with
          | nil =>
            rw [show collapseNlF (f + 1) ['\n', c2] =
              '\n' :: collapseNlF f [c2] from rfl]
            rw [noAdjST_cons, Bool.and_eq_true]
            refine ⟨?_, ih _ (noAdjST_tail _ _ h)⟩
            cases (collapseNlF f [c2]).head? with
            | none => rfl
            | some x => simp [hnst]
          | cons c3 cs3 =>
            by_cases h23 : (c2 == '\n' && c3 == '\n') = true
            · have hrw : collapseNlF (f + 1) ('\n' :: c2 :: c3 :: cs3) =
                  '\n' :: '\n' :: collapseNlF f
                    ((c2 :: c3 :: cs3).dropWhile (fun x => x == '\n')) := by
                simp [collapseNlF, h23]
              rw [hrw, noAdjST_cons, Bool.and_eq_true]
              refine ⟨by simp [hnst], ?_⟩
              rw [noAdjST_cons, Bool.and_eq_true]
              refine ⟨?_, ih _ (noAdjST_dropWhile _ _ (noAdjST_tail _ _ h))⟩
              cases (collapseNlF f
                ((c2 :: c3 :: cs3).dropWhile (fun x => x == '\n'))).head? with
              | none => rfl
              | some x => simp [hnst]
            · have hrw : collapseNlF (f + 1) ('\n' :: c2 :: c3 :: cs3) =
                  '\n' :: collapseNlF f (c2 :: c3 :: cs3) := by
                simp [collapseNlF, h23]
              rw [hrw, noAdjST_cons, Bool.and_eq_true]
              refine ⟨?_, ih _ (noAdjST_tail _ _ h)⟩
              cases (collapseNlF f (c2 :: c3 :: cs3)).head? with
              | none => rfl
              | some x => simp [hnst]
      · have hrw : collapseNlF (f + 1) (c :: cs) = c :: collapseNlF f cs := by
          simp [collapseNlF, hc]
        rw [hrw, noAdjST_cons, Bool.and_eq_true]
        refine ⟨?_, ih _ (noAdjST_tail _ _ h)⟩
        rw [collapseNlF_head f cs]
        rw [noAdjST_cons, Bool.and_eq_true] at h
        exact h.1

theorem nlLead_le_one_of_not_run (c2 c3 : Char) (cs3 : List Char)
    (h : (c2 == '\n' && c3 == '\n') = false) :
    nlLead (c2 :: c3 :: cs3) ≤ 1 := by
  by_cases h2 : (c2 == '\n') = true
  · have h3 : (c3 == '\n') = false := by
      cases h3b : c3 == '\n'
      · rfl
      · rw [h2, h3b] at h
        simp at h
    rw [nlLead_cons, if_pos h2, nlLead_cons, if_neg (by simp [h3])]
  · rw [nlLead_cons, if_neg h2]
    omega

theorem collapseNlF_noTriple :
    ∀ (f : Nat) (l : List Char), l.length ≤ f →
      noTripleNl (collapseNlF f l) = true ∧
      nlLead (collapseNlF f l) ≤ 2 ∧
      nlLead (collapseNlF f l) ≤ nlLead l := by
  intro f
  induction f with
  | zero =>
    intro l hl
    have : l = [] := List.length_eq_zero.mp (Nat.le_zero.mp hl)
    subst this
    exact ⟨rfl, by rw [show collapseNlF 0 [] = [] from rfl, nlLead_nil]; omega,
      by rw [show collapseNlF 0 [] = [] from rfl]⟩
  | succ f ih =>
    intro l hl
    cases l with
    | nil =>
      exact ⟨rfl, by rw [collapseNlF_nil, nlLead_nil]; omega,
        by rw [collapseNlF_nil]⟩
    | cons c cs =>
      have hcs : cs.length ≤ f := by
        simp only [List.length_cons] at hl
        omega
      by_cases hc : (c == '\n') = true
      · have hceq : c = '\n' := by simpa using hc
        subst hceq
        cases cs with
        | nil =>
          rw [show collapseNlF (f + 1) ['\n'] = '\n' :: collapseNlF f [] from rfl]
          rw [collapseNlF_nil]
          refine ⟨rfl, ?_, ?_⟩ <;> simp [nlLead_cons, nlLead_nil]
        | cons c2 cs2 =>
          cases cs2 with
          | nil =>
            rw [show collapseNlF (f + 1) ['\n', c2] =
              '\n' :: collapseNlF f [c2] from rfl]
            obtain ⟨hT, hb2, hbl⟩ := ih [c2] (by simpa using hcs)
            have hlead1 : nlLead (collapseNlF f [c2]) ≤ 1 := by
              have : nlLead [c2] ≤ 1 := by
                by_cases hb : (c2 == '\n') = true <;>
                  simp [nlLead_cons, nlLead_nil, hb]
              omega
            refine ⟨noTriple_nl_cons _ hlead1 hT, ?_, ?_⟩
            · rw [nlLead_cons, if_pos (by decide)]
              omega
            · rw [nlLead_cons, if_pos (by decide),
                nlLead_cons, if_pos (by decide)]
              omega
          | cons c3 cs3 =>
            by_cases h23 : (c2 == '\n' && c3 == '\n') = true
            · have hrw : collapseNlF (f + 1) ('\n' :: c2 :: c3 :: cs3) =
                  '\n' :: '\n' :: collapseNlF f
                    ((c2 :: c3 :: cs3).dropWhile (fun x => x == '\n')) := by
                simp [collapseNlF, h23]
              rw [hrw]
              have hdlen : ((c2 :: c3 :: cs3).dropWhile
                  (fun x => x == '\n')).length ≤ f :=
                Nat.le_trans (dropWhileLen_le _ _) hcs
              obtain ⟨hT, _, _⟩ := ih _ hdlen
              have hd0 : nlLead (collapseNlF f
                  ((c2 :: c3 :: cs3).dropWhile (fun x => x == '\n'))) = 0 := by
                cases hd : (c2 :: c3 :: cs3).dropWhile (fun x => x == '\n') with
                | nil => rw [collapseNlF_nil, nlLead_nil]
                | cons x0 xs =>
                  have hx0 : (x0 == '\n') = false :=
                    dropWhile_head_false _ (c2 :: c3 :: cs3) x0 (by rw [hd]; rfl)
                  cases hout : collapseNlF f (x0 :: xs) with
                  | nil => rw [nlLead_nil]
                  | cons z zs =>
                    have hz : z = x0 := by
                      have hhd := collapseNlF_head f (x0 :: xs)
                      rw [hout] at hhd
                      simpa using hhd
                    rw [nlLead_cons, hz, if_neg (by simp [hx0])]
              rw [Bool.and_eq_true] at h23
              have h2eq : c2 = '\n' := by simpa using h23.1
              have h3eq : c3 = '\n' := by simpa using h23.2
              subst h2eq h3eq
              refine ⟨noTriple_nlnl_cons _ hd0 hT, ?_, ?_⟩
              · rw [nlLead_cons, if_pos (by decide),
                  nlLead_cons, if_pos (by decide), hd0]
              · rw [nlLead_cons, if_pos (by decide),
                  nlLead_cons, if_pos (by decide), hd0]
                rw [nlLead_cons, if_pos (by decide),
                  nlLead_cons, if_pos (by decide),
                  nlLead_cons, if_pos (by decide)]
                omega
            · have hrw : collapseNlF (f + 1) ('\n' :: c2 :: c3 :: cs3) =
                  '\n' :: collapseNlF f (c2 :: c3 :: cs3) := by
                simp [collapseNlF, h23]
              rw [hrw]
              obtain ⟨hT, hb2, hbl⟩ := ih (c2 :: c3 :: cs3) hcs
              have h23f : (c2 == '\n' && c3 == '\n') = false := by
                simpa using h23
              have hlead1 : nlLead (collapseNlF f (c2 :: c3 :: cs3)) ≤ 1 :=
                Nat.le_trans hbl (nlLead_le_one_of_not_run c2 c3 cs3 h23f)
              refine ⟨noTriple_nl_cons _ hlead1 hT, ?_, ?_⟩
              · rw [nlLead_cons, if_pos (by decide)]
                omega
              · rw [nlLead_cons, if_pos (by decide),
                  nlLead_cons, if_pos (by decide)]
                omega
      · have hrw : collapseNlF (f + 1) (c :: cs) = c :: collapseNlF f cs := by
          simp [collapseNlF, hc]
        rw [hrw]
        obtain ⟨hT, _, _⟩ := ih cs hcs
        refine ⟨?_, ?_, ?_⟩
        · rw [noTripleNl_cons, Bool.and_eq_true]
          refine ⟨?_, hT⟩
          cases collapseNlF f cs with
          | nil => rfl
          | cons x xs =>
            cases xs with
            | nil => rfl
            | cons y ys => simp [hc]
        · rw [nlLead_cons, if_neg hc]
          omega
        · rw [nlLead_cons, if_neg hc]
          omega

theorem collapseNlF_eq_self :
    ∀ (f : Nat) (l : List Char), noTripleNl l = true → collapseNlF f l = l := by
  intro f
  induction f with
  | zero => intro l _; rfl
  | succ f ih =>
    intro l h
    cases l with
    | nil => rfl
    | cons c cs =>
      by_cases hc : (c == '\n') = true
      · have hceq : c = '\n' := by simpa using hc
        subst hceq
        cases cs with
        | nil =>
          rw [show collapseNlF (f + 1) ['\n'] = '\n' :: collapseNlF f [] from rfl]
          rw [collapseNlF_nil]
        | cons c2 cs2 =>
          cases cs2 with
          | nil =>
            rw [show collapseNlF (f + 1) ['\n', c2] =
              '\n' :: collapseNlF f [c2] from rfl]
            rw [ih _ (noTripleNl_tail _ _ h)]
          | cons c3 cs3 =>
            by_cases h23 : (c2 == '\n' && c3 == '\n') = true
            · exfalso
              rw [Bool.and_eq_true] at h23
              obtain ⟨hb2, hb3⟩ := h23
              have : noTripleNl ('\n' :: c2 :: c3 :: cs3) = false := by
                show (!('\n' == '\n' && c2 == '\n' && c3 == '\n') &&
                  noTripleNl (c2 :: c3 :: cs3)) = false
                rw [hb2, hb3]
                simp
              rw [this] at h
              exact Bool.false_ne_true h
            · have hrw : collapseNlF (f + 1) ('\n' :: c2 :: c3 :: cs3) =
                  '\n' :: collapseNlF f (c2 :: c3 :: cs3) := by
                simp [collapseNlF, h23]
              rw [hrw, ih _ (noTripleNl_tail _ _ h)]
      · have hrw : collapseNlF (f + 1) (c :: cs) = c :: collapseNlF f cs := by
          simp [collapseNlF, hc]
        rw [hrw, ih _ (noTripleNl_tail _ _ h)]

theorem noAdjST_trimL (l : List Char) (h : noAdjST l = true) :
    noAdjST (trimL l) = true := by
  unfold trimL
  obtain ⟨k, hk⟩ := dropTrailingWs_exists_take (l.dropWhile jsWs)
  rw [hk]
  exact noAdjST_take _ k (noAdjST_dropWhile _ _ h)

theorem noTripleNl_trimL (l : List Char) (h : noTripleNl l = true) :
    noTripleNl (trimL l) = true := by
  unfold trimL
  obtain ⟨k, hk⟩ := dropTrailingWs_exists_take (l.dropWhile jsWs)
  rw [hk]
  exact noTripleNl_take _ k (noTripleNl_dropWhile _ _ h)

theorem trimL_head_not_ws (l : List Char) (x : Char)
    (h : (trimL l).head? = some x) : jsWs x = false := by
  unfold trimL at h
  cases hout : dropTrailingWs (l.dropWhile jsWs) with
  | nil => rw [hout] at h; simp at h
  | cons y ys =>
    rw [hout] at h
    simp only [List.head?_cons, Option.some.injEq] at h
    rw [← h]
    exact dropWhile_head_false jsWs l y
      (dropTrailingWs_head (l.dropWhile jsWs) y ys hout)

theorem trimL_getLast_not_ws (l : List Char) (x : Char)
    (h : (trimL l).getLast? = some x) : jsWs x = false :=
  dropTrailingWs_getLast_not_ws (l.dropWhile jsWs) x h

theorem trimL_eq_self (l : List Char)
    (hh : ∀ x, l.head? = some x → jsWs x = false)
    (hl : ∀ x, l.getLast? = some x → jsWs x = false) : trimL l = l := by
  unfold trimL
  have hdw : l.dropWhile jsWs = l := by
    cases l with
    | nil => rfl
    | cons c cs =>
      rw [List.dropWhile_cons_of_neg]
      simp [hh c rfl]
  rw [hdw]
  exact dropTrailingWs_eq_self_of_getLast l hl

/-- The `cleanResponse` whitespace clean-up of `nodes.ts` is idempotent
(shared helper for the finalize post-pass claim). -/
theorem cleanResponse_idem (l : List Char) :
    cleanResponse (cleanResponse l) = cleanResponse l := by
  have hu : noAdjST (collapseSpaces l) = true :=
    noAdjST_collapseSpacesF l.length l (Nat.le_refl _)
  have hv1 : noAdjST (collapseNl (collapseSpaces l)) = true :=
    noAdjST_collapseNlF _ _ hu
  have hv2 : noTripleNl (collapseNl (collapseSpaces l)) = true :=
    (collapseNlF_noTriple _ _ (Nat.le_refl _)).1
  have hw1 : noAdjST (cleanResponse l) = true := noAdjST_trimL _ hv1
  have hw2 : noTripleNl (cleanResponse l) = true := noTripleNl_trimL _ hv2
  show trimL (collapseNl (collapseSpaces (cleanResponse l))) = cleanResponse l
  rw [show collapseSpaces (cleanResponse l) = cleanResponse l from
    collapseSpacesF_eq_self _ _ hw1]
  rw [show collapseNl (cleanResponse l) = cleanResponse l from
    collapseNlF_eq_self _ _ hw2]
  show trimL (trimL (collapseNl (collapseSpaces l))) =
    trimL (collapseNl (collapseSpaces l))
  exact trimL_eq_self _
    (fun y hy => trimL_head_not_ws (collapseNl (collapseSpaces l)) y hy)
    (fun y hy => trimL_getLast_not_ws (collapseNl (collapseSpaces l)) y hy)

/-- Claim C8 counterexample: the finalize post-pass is not idempotent.
The warning banner itself contains the trigger phrase `Limited Coverage`,
so a second application of the post-pass prepends the banner a second
time. -/
theorem claim8_counterexample :
    finalizeResponse (finalizeResponse ("few sources".data)) ≠
      finalizeResponse ("few sources".data) := by
  decide

/-- Claim C8 as amended: the finalize post-pass is idempotent on every
string whose post-pass output contains no trigger phrase; when the output
contains a trigger phrase (and it always does once the banner has been
prepended, since the banner itself contains one), re-application prepends
the banner again.  The whitespace clean-up component on its own is
idempotent unconditionally (`cleanResponse_idem`). -/
theorem claim8_amended_idempotent_without_trigger (l : List Char)
    (h : hasCoverageTrigger (finalizeResponse l) = false) :
    finalizeResponse (finalizeResponse l) = finalizeResponse l := by
  have hwarn : addCoverageWarningIfNeeded (finalizeResponse l) =
      finalizeResponse l := by
    simp [addCoverageWarningIfNeeded, h]
  show cleanResponse (addCoverageWarningIfNeeded (finalizeResponse l)) =
    finalizeResponse l
  rw [hwarn]
  show cleanResponse (cleanResponse (addCoverageWarningIfNeeded l)) =
    cleanResponse (addCoverageWarningIfNeeded l)
  exact cleanResponse_idem _

/-- Witness for the amended claim C8 at a concrete trigger-free string. -/
theorem claim8_witness :
    hasCoverageTrigger (finalizeResponse ("hello  world\n\n\n\nbye".data)) =
      false ∧
    finalizeResponse (finalizeResponse ("hello  world\n\n\n\nbye".data)) =
      finalizeResponse ("hello  world\n\n\n\nbye".data) :=
  ⟨by decide, claim8_amended_idempotent_without_trigger _ (by decide)⟩

/-! Helper lemmas for the context-builder claim: on text without `<` the
three markup-stripping passes are the identity, and trimming behaves as
expected on concrete shapes. -/

theorem userMentionMatchAt_eq_none (c : Char) (cs : List Char)
    (h : (c == '<') = false) : userMentionMatchAt (c :: cs) = none := by
  cases cs with
  | nil => rfl
  | cons b bs =>
    cases bs with
    | nil => rfl
    | cons d ds => simp [userMentionMatchAt, h]

theorem channelMentionMatchAt_eq_none (c : Char) (cs : List Char)
    (h : (c == '<') = false) : channelMentionMatchAt (c :: cs) = none := by
  cases cs with
  | nil => rfl
  | cons b bs =>
    cases bs with
    | nil => rfl
    | cons d ds => simp [channelMentionMatchAt, h]

theorem angleMatchAt_eq_none (c : Char) (cs : List Char)
    (h : (c == '<') = false) : angleMatchAt (c :: cs) = none := by
  simp [angleMatchAt, h]

theorem stripUserMentionsF_eq_self :
    ∀ (f : Nat) (l : List Char), (∀ c ∈ l, (c == '<') = false) →
      stripUserMentionsF f l = l := by
  intro f
  induction f with
  | zero => intro l _; rfl
  | succ f ih =>
    intro l h
    cases l with
    | nil => rfl
    | cons c cs =>
      show (match userMentionMatchAt (c :: cs) with
        | some rest => stripUserMentionsF f rest
        | none => c :: stripUserMentionsF f cs) = c :: cs
      rw [userMentionMatchAt_eq_none c cs (h c (List.mem_cons_self c cs))]
      rw [ih cs (fun x hx => h x (List.mem_cons_of_mem c hx))]

theorem channelMentionsF_eq_self :
    ∀ (f : Nat) (l : List Char), (∀ c ∈ l, (c == '<') = false) →
      channelMentionsF f l = l := by
  intro f
  induction f with
  | zero => intro l _; rfl
  | succ f ih =>
    intro l h
    cases l with
    | nil => rfl
    | cons c cs =>
      show (match channelMentionMatchAt (c :: cs) with
        | some (nm, rest) => '#' :: (nm ++ channelMentionsF f rest)
        | none => c :: channelMentionsF f cs) = c :: cs
      rw [channelMentionMatchAt_eq_none c cs (h c (List.mem_cons_self c cs))]
      rw [ih cs (fun x hx => h x (List.mem_cons_of_mem c hx))]

theorem stripAnglesF_eq_self :
    ∀ (f : Nat) (l : List Char), (∀ c ∈ l, (c == '<') = false) →
      stripAnglesF f l = l := by
  intro f
  induction f with
  | zero => intro l _; rfl
  | succ f ih =>
    intro l h
    cases l with
    | nil => rfl
    | cons c cs =>
      show (match angleMatchAt (c :: cs) with
        | some (mid, rest) => mid ++ stripAnglesF f rest
        | none => c :: stripAnglesF f cs) = c :: cs
      rw [angleMatchAt_eq_none c cs (h c (List.mem_cons_self c cs))]
      rw [ih cs (fun x hx => h x (List.mem_cons_of_mem c hx))]

theorem cleanMessageText_eq_trimL (l : List Char)
    (h : ∀ c ∈ l, (c == '<') = false) : cleanMessageText l = trimL l := by
  simp only [cleanMessageText]
  rw [stripUserMentionsF_eq_self _ _ h]
  rw [channelMentionsF_eq_self _ _ h]
  rw [stripAnglesF_eq_self _ _ h]

theorem dropTrailingWs_append_ws (c : Char) (hc : jsWs c = true) :
    ∀ l : List Char, dropTrailingWs (l ++ [c]) = dropTrailingWs l := by
  intro l
  induction l with
  | nil => simp [dropTrailingWs, hc]
  | cons a as ih =>
    show (match dropTrailingWs (as ++ [c]) with
      | [] => if jsWs a then [] else [a]
      | x :: xs => a :: x :: xs) = dropTrailingWs (a :: as)
    rw [ih]
    rfl

theorem dropTrailingWs_eq_self_of_no_ws (l : List Char)
    (h : ∀ x ∈ l, jsWs x = false) : dropTrailingWs l = l := by
  induction l with
  | nil => rfl
  | cons a as ih =>
    show (match dropTrailingWs as with
      | [] => if jsWs a then [] else [a]
      | x :: xs => a :: x :: xs) = a :: as
    rw [ih (fun x hx => h x (List.mem_cons_of_mem a hx))]
    cases as with
    | nil => simp [h a (by simp)]
    | cons b bs => rfl

theorem dropWhile_eq_self_of_no_ws (l : List Char)
    (h : ∀ x ∈ l, jsWs x = false) : l.dropWhile jsWs = l := by
  cases l with
  | nil => rfl
  | cons a as =>
    rw [List.dropWhile_cons_of_neg]
    simp [h a (List.mem_cons_self a as)]

theorem trimL_eq_self_of_no_ws (l : List Char)
    (h : ∀ x ∈ l, jsWs x = false) : trimL l = l := by
  unfold trimL
  rw [dropWhile_eq_self_of_no_ws l h, dropTrailingWs_eq_self_of_no_ws l h]

theorem hasPrefixL_self_append (p r : List Char) :
    hasPrefixL p (p ++ r) = true := by
  induction p with
  | nil => rfl
  | cons c cs ih => simp [hasPrefixL, ih]

theorem buildConversationContext_cons_some (t : List Char)
    (b : Option (List Char)) (rest : List RawMsg)
    (hne : (trimL t).isEmpty = false)
    (hlen : ¬ 2000 < (cleanMessageText t).length) :
    buildConversationContext (RawMsg.mk (some t) b :: rest) =
      ((if truthyS b then Role.assistant else Role.user), cleanMessageText t) ::
        buildConversationContext rest := by
  simp only [buildConversationContext, hne, Bool.false_eq_true, if_false,
    if_neg hlen]

theorem buildConversationContext_cons_some_long (t : List Char)
    (b : Option (List Char)) (rest : List RawMsg)
    (hne : (trimL t).isEmpty = false)
    (hlen : 2000 < (cleanMessageText t).length) :
    buildConversationContext (RawMsg.mk (some t) b :: rest) =
      ((if truthyS b then Role.assistant else Role.user),
        (cleanMessageText t).take 2000 ++ truncationMarker) ::
        buildConversationContext rest := by
  simp only [buildConversationContext, hne, Bool.false_eq_true, if_false,
    if_pos hlen]

/-- Claim C9 as amended: the builder truncates by the length of the
cleaned content (mention and markup stripping plus trim), not of the raw
content — for every message whose cleaned content exceeds 2000 characters,
the built content is the 2000-character cut plus the marker, of length
exactly 2000 plus the marker length, and ends with the marker. -/
theorem claim9_amended_truncation (t : List Char) (b : Option (List Char))
    (hne : (trimL t).isEmpty = false)
    (hlen : 2000 < (cleanMessageText t).length) :
    buildConversationContext [RawMsg.mk (some t) b] =
      [((if truthyS b then Role.assistant else Role.user),
        (cleanMessageText t).take 2000 ++ truncationMarker)] ∧
    ((cleanMessageText t).take 2000 ++ truncationMarker).length =
      2000 + truncationMarker.length ∧
    hasSuffixL truncationMarker
      ((cleanMessageText t).take 2000 ++ truncationMarker) = true := by
  refine ⟨?_, ?_, ?_⟩
  · rw [buildConversationContext_cons_some_long t b [] hne hlen]
    rfl
  · rw [List.length_append, List.length_take, min_eq_left (Nat.le_of_lt hlen)]
  · unfold hasSuffixL
    rw [List.reverse_append]
    exact hasPrefixL_self_append _ _

/-- Witness for the amended claim C9 on a 2001-character message. -/
theorem claim9_witness :
    (trimL (List.replicate 2001 'a')).isEmpty = false ∧
    2000 < (cleanMessageText (List.replicate 2001 'a')).length ∧
    (buildConversationContext [RawMsg.mk (some (List.replicate 2001 'a')) none] =
      [((if truthyS none then Role.assistant else Role.user),
        (cleanMessageText (List.replicate 2001 'a')).take 2000 ++
          truncationMarker)] ∧
     ((cleanMessageText (List.replicate 2001 'a')).take 2000 ++
        truncationMarker).length = 2000 + truncationMarker.length ∧
     hasSuffixL truncationMarker
       ((cleanMessageText (List.replicate 2001 'a')).take 2000 ++
         truncationMarker) = true) := by
  have hnoWs : ∀ x ∈ List.replicate 2001 'a', jsWs x = false := by
    intro x hx
    rw [List.eq_of_mem_replicate hx]
    decide
  have hnoLt : ∀ c ∈ List.replicate 2001 'a', (c == '<') = false := by
    intro c hc
    rw [List.eq_of_mem_replicate hc]
    decide
  have htrim : trimL (List.replicate 2001 'a') = List.replicate 2001 'a' :=
    trimL_eq_self_of_no_ws _ hnoWs
  have hclean : cleanMessageText (List.replicate 2001 'a') =
      List.replicate 2001 'a' := by
    rw [cleanMessageText_eq_trimL _ hnoLt, htrim]
  have h1 : (trimL (List.replicate 2001 'a')).isEmpty = false := by
    rw [htrim, show (2001 : Nat) = 2000 + 1 from rfl, List.replicate_succ]
    rfl
  have h2 : 2000 < (cleanMessageText (List.replicate 2001 'a')).length := by
    rw [hclean, List.length_replicate]
    decide
  exact ⟨h1, h2, claim9_amended_truncation _ none h1 h2⟩

/-- Claim C9 counterexample: a raw message of 2001 characters whose
cleaned content is only 2000 characters (the raw text ends in a space that
trimming removes) is not truncated at all — the output length is 2000, not
2000 plus the marker length, and the output does not end with the marker. -/
theorem claim9_counterexample :
    (List.replicate 2000 'a' ++ [' ']).length = 2001 ∧
    buildConversationContext
        [RawMsg.mk (some (List.replicate 2000 'a' ++ [' '])) none] =
      [(Role.user, List.replicate 2000 'a')] ∧
    ¬ ((List.replicate 2000 'a').length = 2000 + truncationMarker.length) ∧
    hasSuffixL truncationMarker (List.replicate 2000 'a') = false := by
  have hnoLt : ∀ c ∈ List.replicate 2000 'a' ++ [' '], (c == '<') = false := by
    intro c hc
    rcases List.mem_append.mp hc with hc | hc
    · rw [List.eq_of_mem_replicate hc]; decide
    · rw [List.mem_singleton.mp hc]; decide
  have hnoWsA : ∀ x ∈ List.replicate 2000 'a', jsWs x = false := by
    intro x hx
    rw [List.eq_of_mem_replicate hx]
    decide
  have hcons : List.replicate 2000 'a' ++ [' '] =
      'a' :: (List.replicate 1999 'a' ++ [' ']) := by
    rw [show (2000 : Nat) = 1999 + 1 from rfl, List.replicate_succ]
    rfl
  have htrim : trimL (List.replicate 2000 'a' ++ [' ']) =
      List.replicate 2000 'a' := by
    unfold trimL
    rw [hcons, List.dropWhile_cons_of_neg (by simp [jsWs]), ← hcons]
    rw [dropTrailingWs_append_ws ' ' (by decide) _]
    exact dropTrailingWs_eq_self_of_no_ws _ hnoWsA
  have hclean : cleanMessageText (List.replicate 2000 'a' ++ [' ']) =
      List.replicate 2000 'a' := by
    rw [cleanMessageText_eq_trimL _ hnoLt, htrim]
  refine ⟨?_, ?_, ?_, ?_⟩
  · rw [List.length_append, List.length_replicate]
    rfl
  · have hne : (trimL (List.replicate 2000 'a' ++ [' '])).isEmpty = false := by
      rw [htrim, show (2000 : Nat) = 1999 + 1 from rfl, List.replicate_succ]
      rfl
    have hlen : ¬ (2000 < (cleanMessageText
        (List.replicate 2000 'a' ++ [' '])).length) := by
      rw [hclean, List.length_replicate]
      decide
    rw [buildConversationContext_cons_some _ none [] hne hlen, hclean]
    rfl
  · rw [List.length_replicate]
    decide
  · unfold hasSuffixL
    rw [List.reverse_replicate, show (2000 : Nat) = 1999 + 1 from rfl,
      List.replicate_succ]
    rfl

/-- Claim C5 as amended: the fallback canonicalizes only `sefaria.org`
link targets, and there the whitespace pass runs before the
verse-space pass, so the space before the verse reference becomes an
underscore (`Genesis_3.4`), not a period; the percent-escaped comma is
decoded and the chapter:verse colon becomes a period.  This matches the
repository's own fixtures (`sefariaUrlTestCases`,
`expectedSlackFormatted.singleLink`). -/
theorem claim5_amended_sefaria_canonicalization :
    basicSlackFormatConversion
        ("<a href=\"https://www.sefaria.org/Genesis 3:4\" target=\"_blank\">Genesis 3:4</a>".data) =
      ("<https://www.sefaria.org/Genesis_3.4|Genesis 3:4>".data) ∧
    basicSlackFormatConversion
        ("The <a href=\"https://www.sefaria.org/Midrash_Tanchuma%2C_Bereshit.4.1\" target=\"_blank\">Midrash Tanchuma on Bereshit 4:1</a> explains this concept.".data) =
      ("The <https://www.sefaria.org/Midrash_Tanchuma,_Bereshit.4.1|Midrash Tanchuma on Bereshit 4:1> explains this concept.".data) := by
  constructor
  · decide
  · decide

end SlackMCP
